import Mathlib

/-!
Verification of the Foundation spec-resolution and policy-evaluation core.

This file gives a shallow embedding, in Lean, of the core components of the
repository:

* the condition-expression evaluator (`conditions.ts`: `evaluateCondition`,
  `resolveValue`, `compareValues`),
* the policy engine (`policy-engine.ts`: `PolicyEngine.evaluate`,
  `getEffectivePermissions`),
* the rate limiter (`packages/psl-runtime/src/policy/rate-limit.ts`),
* the spec linker (`tools/fd/src/core/spec-linker.ts`: `SpecLinker.link`),
* the spec validator (`tools/fd/src/core/spec-validator.ts`).

JavaScript runtime values flowing through the condition evaluator are modelled
by the tagged union `JsValue` (string / number / boolean / null / undefined /
array / object, with objects as insertion-ordered association lists, mirroring
JS object key order).  JS numbers are modelled as rationals; the numeric
literals accepted by the evaluator's regex `^-?\d+(\.\d+)?$` are exact in this
model.  Strings are processed as `List Char`, with the JS string operations
(`includes`, `split`, `replace`-first, `trim`, `startsWith`, `slice`)
implemented below so that their behaviour is fully transparent.
-/

namespace Foundation

/-! ### JS string primitives on `List Char` -/

/-- JS whitespace for `String.prototype.trim` (the characters that occur in
this codebase's condition strings; full Unicode whitespace is not needed). -/
def isJsSpace (c : Char) : Bool :=
  c = ' ' || c = '\t' || c = '\n' || c = '\r'

/-- `String.prototype.trim`. -/
def trimL (l : List Char) : List Char :=
  ((l.dropWhile isJsSpace).reverse.dropWhile isJsSpace).reverse

theorem length_dropWhile_le' (p : Char → Bool) (l : List Char) :
    (l.dropWhile p).length ≤ l.length := by
  induction l with
  | nil => simp
  | cons a as ih =>
    rw [List.dropWhile]
    cases p a with
    | true => simp; omega
    | false => simp

theorem trimL_length_le (l : List Char) : (trimL l).length ≤ l.length := by
  unfold trimL
  calc ((l.dropWhile isJsSpace).reverse.dropWhile isJsSpace).reverse.length
      = ((l.dropWhile isJsSpace).reverse.dropWhile isJsSpace).length := by
        rw [List.length_reverse]
    _ ≤ (l.dropWhile isJsSpace).reverse.length := length_dropWhile_le' _ _
    _ = (l.dropWhile isJsSpace).length := by rw [List.length_reverse]
    _ ≤ l.length := length_dropWhile_le' _ _

/-- `l` starts with `p` (JS `String.prototype.startsWith`). -/
def hasPref : List Char → List Char → Bool
  | [], _ => true
  | _ :: _, [] => false
  | a :: as, b :: bs => a = b && hasPref as bs

theorem hasPref_iff (p l : List Char) : hasPref p l = true ↔ ∃ t, l = p ++ t := by
  induction p generalizing l with
  | nil => simp [hasPref]
  | cons a as ih =>
    cases l with
    | nil => simp [hasPref]
    | cons b bs =>
      simp only [hasPref, Bool.and_eq_true, decide_eq_true_eq, ih, List.cons_append,
        List.cons.injEq]
      constructor
      · rintro ⟨rfl, t, rfl⟩
        exact ⟨t, rfl, rfl⟩
      · rintro ⟨t, rfl, rfl⟩
        exact ⟨rfl, t, rfl⟩

theorem hasPref_length {p l : List Char} (h : hasPref p l = true) : p.length ≤ l.length := by
  obtain ⟨t, rfl⟩ := (hasPref_iff p l).mp h
  simp

/-- Locate the first occurrence of the (nonempty) separator `sep` in `l`:
returns the part before it, and the remainder after it.  For `sep = []` it
returns `none`; the core only ever uses nonempty separators. -/
def findOcc (sep : List Char) : List Char → Option (List Char × List Char)
  | [] => none
  | c :: rest =>
    if sep ≠ [] && hasPref sep (c :: rest) then
      some ([], (c :: rest).drop sep.length)
    else
      match findOcc sep rest with
      | none => none
      | some (p, r) => some (c :: p, r)

theorem findOcc_spec {sep l p r : List Char} (h : findOcc sep l = some (p, r)) :
    sep ≠ [] ∧ l = p ++ sep ++ r := by
  induction l generalizing p r with
  | nil => simp [findOcc] at h
  | cons c rest ih =>
    rw [findOcc] at h
    by_cases hc : sep ≠ [] && hasPref sep (c :: rest)
    · rw [if_pos hc] at h
      simp only [Option.some.injEq, Prod.mk.injEq] at h
      obtain ⟨rfl, rfl⟩ := h
      simp only [Bool.and_eq_true, ne_eq, decide_eq_true_eq] at hc
      obtain ⟨t, ht⟩ := (hasPref_iff sep (c :: rest)).mp hc.2
      refine ⟨hc.1, ?_⟩
      rw [ht]
      simp
    · rw [if_neg hc] at h
      cases hfo : findOcc sep rest with
      | none => rw [hfo] at h; exact absurd h (by simp)
      | some pr =>
        obtain ⟨p', r'⟩ := pr
        rw [hfo] at h
        simp only [Option.some.injEq, Prod.mk.injEq] at h
        obtain ⟨rfl, rfl⟩ := h
        obtain ⟨hne, hrest⟩ := ih hfo
        exact ⟨hne, by simp [hrest]⟩

theorem findOcc_rest_length {sep l p r : List Char} (h : findOcc sep l = some (p, r)) :
    r.length < l.length := by
  obtain ⟨hne, rfl⟩ := findOcc_spec h
  have : sep.length ≠ 0 := fun h0 => hne (List.eq_nil_of_length_eq_zero h0)
  simp only [List.length_append]
  omega

/-- `l.includes sep` for a substring (JS `String.prototype.includes`). -/
def containsSub (sep l : List Char) : Bool :=
  (findOcc sep l).isSome

/-- Fuelled worker for `String.prototype.split`: each found occurrence
consumes one unit of fuel, and each occurrence consumes at least one
character, so `l.length + 1` fuel always suffices (`splitOnSubF_fuel_eq`). -/
def splitOnSubF (sep : List Char) : ℕ → List Char → List (List Char)
  | 0, l => [l]
  | n + 1, l =>
    match findOcc sep l with
    | none => [l]
    | some (p, r) => p :: splitOnSubF sep n r

theorem splitOnSubF_fuel_eq {sep : List Char} :
    ∀ (k : ℕ) (l : List Char) (m n : ℕ),
      l.length ≤ k → l.length < m → l.length < n →
      splitOnSubF sep m l = splitOnSubF sep n l := by
  intro k
  induction k with
  | zero =>
    intro l m n hk hm hn
    have hl : l = [] := List.eq_nil_of_length_eq_zero (Nat.le_zero.mp hk)
    subst hl
    obtain ⟨m', rfl⟩ : ∃ m', m = m' + 1 := ⟨m - 1, by omega⟩
    obtain ⟨n', rfl⟩ : ∃ n', n = n' + 1 := ⟨n - 1, by omega⟩
    rfl
  | succ k ih =>
    intro l m n hk hm hn
    obtain ⟨m', rfl⟩ : ∃ m', m = m' + 1 := ⟨m - 1, by omega⟩
    obtain ⟨n', rfl⟩ : ∃ n', n = n' + 1 := ⟨n - 1, by omega⟩
    cases h : findOcc sep l with
    | none => simp only [splitOnSubF, h]
    | some pr =>
      obtain ⟨p, r⟩ := pr
      have hr := findOcc_rest_length h
      simp only [splitOnSubF, h]
      rw [ih r m' n' (by omega) (by omega) (by omega)]

/-- JS `String.prototype.split` on a (nonempty) string separator. -/
def splitOnSub (sep l : List Char) : List (List Char) :=
  splitOnSubF sep (l.length + 1) l

/-- The one-step unfolding that matches the usual recursive definition of
split: head part before the first occurrence, then split the remainder. -/
theorem splitOnSub_unfold (sep l : List Char) :
    splitOnSub sep l =
      match findOcc sep l with
      | none => [l]
      | some (p, r) => p :: splitOnSub sep r := by
  show splitOnSubF sep (l.length + 1) l = _
  cases h : findOcc sep l with
  | none => simp only [splitOnSubF, h]
  | some pr =>
    obtain ⟨p, r⟩ := pr
    have hr := findOcc_rest_length h
    have heq : splitOnSubF sep l.length r = splitOnSubF sep (r.length + 1) r :=
      splitOnSubF_fuel_eq r.length r l.length (r.length + 1) le_rfl (by omega) (by omega)
    simp only [splitOnSubF, h, heq]
    rfl

/-- JS `String.prototype.replace` with a plain-string pattern and empty
replacement: removes the first occurrence of `sep`, if any. -/
def replaceFirst (sep l : List Char) : List Char :=
  match findOcc sep l with
  | none => l
  | some (p, r) => p ++ r

theorem mem_splitOnSub_length_le_aux {sep : List Char} :
    ∀ (n : ℕ) (l : List Char), l.length = n →
      ∀ x ∈ splitOnSub sep l, x.length ≤ l.length := by
  intro n
  induction n using Nat.strong_induction_on with
  | _ n ih =>
    intro l hl x hx
    rw [splitOnSub_unfold] at hx
    cases h : findOcc sep l with
    | none =>
      rw [h] at hx
      simp at hx
      simp [hx]
    | some pr =>
      obtain ⟨p, r⟩ := pr
      rw [h] at hx
      have hr := findOcc_rest_length h
      obtain ⟨hne, hl2⟩ := findOcc_spec h
      rcases List.mem_cons.mp hx with rfl | hx'
      · subst hl2; simp only [List.length_append]; omega
      · have := ih r.length (by omega) r rfl x hx'
        subst hl2
        simp only [List.length_append]
        omega

theorem mem_splitOnSub_length_le {sep : List Char} :
    ∀ (l : List Char), ∀ x ∈ splitOnSub sep l, x.length ≤ l.length :=
  fun l => mem_splitOnSub_length_le_aux l.length l rfl

theorem mem_splitOnSub_length_lt {sep l : List Char} (hc : containsSub sep l = true) :
    ∀ x ∈ splitOnSub sep l, x.length < l.length := by
  intro x hx
  unfold containsSub at hc
  cases h : findOcc sep l with
  | none => rw [h] at hc; simp [Option.isSome] at hc
  | some pr =>
    obtain ⟨p, r⟩ := pr
    rw [splitOnSub_unfold, h] at hx
    have hr := findOcc_rest_length h
    obtain ⟨hne, rfl⟩ := findOcc_spec h
    have hsep : 1 ≤ sep.length := by
      cases sep with
      | nil => exact absurd rfl hne
      | cons a as => simp
    rcases List.mem_cons.mp hx with rfl | hx'
    · simp only [List.length_append]; omega
    · have := mem_splitOnSub_length_le _ x hx'
      simp only [List.length_append]
      omega

/-! ### JS runtime values -/

/-- Tagged union for the JS values flowing through the condition evaluator.
Objects keep their keys in insertion order, as JS objects do. -/
inductive JsValue where
  | vStr (s : String)
  | vNum (q : ℚ)
  | vBool (b : Bool)
  | vNull
  | vUndef
  | vArr (xs : List JsValue)
  | vObj (fields : List (String × JsValue))

open JsValue

theorem sizeOf_snd_lt_of_mem {k : String} {v : JsValue} {fs : List (String × JsValue)}
    (h : (k, v) ∈ fs) : sizeOf v < sizeOf fs := by
  have h1 := List.sizeOf_lt_of_mem h
  simp only [Prod.mk.sizeOf_spec] at h1
  omega

/-- The single-quote character (code point 39). -/
def squote : Char := Char.ofNat 39

/-- The double-quote character (code point 34). -/
def dquote : Char := Char.ofNat 34

/-- `Boolean(v)` (JS truthiness).  `NaN` cannot occur here: the only numbers
the evaluator constructs come from the exact literal regex or from
`jsToNumber`, whose inexact results are `none`. -/
def jsTruthy : JsValue → Bool
  | vStr s => s ≠ ""
  | vNum q => q ≠ 0
  | vBool b => b
  | vNull => false
  | vUndef => false
  | vArr _ => true
  | vObj _ => true

/-- Decimal digit run (regex `\d+`). -/
def isDigits (l : List Char) : Bool :=
  l ≠ [] && l.all Char.isDigit

/-- The evaluator's numeric-literal regex `^-?\d+(\.\d+)?$` (after the sign,
at most one dot, digits on both sides). -/
def isNumLit (l : List Char) : Bool :=
  let core := if hasPref ['-'] l then l.drop 1 else l
  match findOcc ['.'] core with
  | none => isDigits core
  | some (a, b) => isDigits a && isDigits b

def digitsToNat (l : List Char) : ℕ :=
  l.foldl (fun acc c => acc * 10 + (c.toNat - 48)) 0

/-- Exact value of a decimal literal matching the regex above
(`parseFloat` is exact on such literals as far as this model needs). -/
def parseNumLit (l : List Char) : ℚ :=
  let neg := hasPref ['-'] l
  let core := if neg then l.drop 1 else l
  let mag : ℚ :=
    match findOcc ['.'] core with
    | none => (digitsToNat core : ℚ)
    | some (a, b) => (digitsToNat a : ℚ) + (digitsToNat b : ℚ) / ((10 : ℚ) ^ b.length)
  if neg then -mag else mag

/-- A canonical array index: a digit string with no leading zero (except "0"),
as accepted by JS array indexing `arr["3"]`. -/
def isCanonIndex (l : List Char) : Bool :=
  isDigits l && (l = ['0'] || hasPref ['0'] l = false)

/-- Decimal rendering of a number for JS string coercion.  Exact for
integers; non-integer rationals (which no claim exercises, and which JS would
print as binary-float decimals) are rendered as `num/den`. -/
def numToString (q : ℚ) : String :=
  if q.den = 1 then
    (if q.num < 0 then "-" ++ toString q.num.natAbs else toString q.num.natAbs)
  else
    (if q.num < 0 then "-" ++ toString q.num.natAbs else toString q.num.natAbs)
      ++ "/" ++ toString q.den

/-- `String(v)` (JS string coercion).  Array elements that are `null` or
`undefined` render as the empty string inside `Array.prototype.join`. -/
def jsToString : JsValue → String
  | vStr s => s
  | vNum q => numToString q
  | vBool b => if b then "true" else "false"
  | vNull => "null"
  | vUndef => "undefined"
  | vArr xs =>
    String.intercalate ","
      (xs.attach.map (fun x =>
        match hx : x.1 with
        | vNull => ""
        | vUndef => ""
        | v => jsToString v))
  | vObj _ => "[object Object]"
decreasing_by
  have h1 := List.sizeOf_lt_of_mem x.2
  rw [hx] at h1
  simp only [JsValue.vArr.sizeOf_spec]
  omega

/-- `Number(s)` for a string: empty/whitespace is `0`, a decimal literal is
its value, anything else is `NaN` (`none`).  (JS also accepts hex, exponent
and `Infinity` forms; none occur in this core's inputs.) -/
def strToNumberOpt (l : List Char) : Option ℚ :=
  let t := trimL l
  if t = [] then some 0
  else if isNumLit t then some (parseNumLit t)
  else none

/-- `Number(v)` (JS numeric coercion); `none` is `NaN`.
`Number(arr)` coerces via `arr.toString()`. -/
def jsToNumber : JsValue → Option ℚ
  | vNum q => some q
  | vBool b => some (if b then 1 else 0)
  | vNull => some 0
  | vUndef => none
  | vStr s => strToNumberOpt s.data
  | vArr xs => strToNumberOpt (jsToString (vArr xs)).data
  | vObj _ => none

/-- JS strict equality `===` on the values the evaluator compares.  For
arrays and objects `===` is reference equality; two separately resolved
values are distinct references, so the model returns `false` for them (the
aliasing corner `a.x = a.x` on the same object is not representable and not
exercised by any policy in this repository). -/
def jsStrictEq : JsValue → JsValue → Bool
  | vStr a, vStr b => a = b
  | vNum a, vNum b => a = b
  | vBool a, vBool b => a = b
  | vNull, vNull => true
  | vUndef, vUndef => true
  | _, _ => false

/-- Property read `v[key]` as performed by `resolveValue`'s path walk.
Objects look keys up in insertion order; arrays expose `length` and their
canonical indices; strings expose `length` and their characters.  Prototype
properties of primitives are not modelled (no condition in this repository
reads them). -/
def getProp (v : JsValue) (key : List Char) : JsValue :=
  match v with
  | vObj fs => (fs.lookup (String.mk key)).getD vUndef
  | vArr xs =>
    if key = ("length").data then vNum xs.length
    else if isCanonIndex key then (xs.get? (digitsToNat key)).getD vUndef
    else vUndef
  | vStr s =>
    if key = ("length").data then vNum s.data.length
    else if isCanonIndex key then
      match s.data.get? (digitsToNat key) with
      | some c => vStr (String.mk [c])
      | none => vUndef
    else vUndef
  | _ => vUndef

/-- The evaluation context of `conditions.ts`: a fixed three-branch record
`{user, resource, request}`. -/
structure ConditionContext where
  user : JsValue
  resource : JsValue
  request : JsValue

/-- The context viewed as the JS object the path walk starts from. -/
def ctxVal (ctx : ConditionContext) : JsValue :=
  vObj [("user", ctx.user), ("resource", ctx.resource), ("request", ctx.request)]

/-- The `for (const part of parts)` loop of `resolveValue`: successive
property lookup, returning `undefined` as soon as the current value is
`null`/`undefined`. -/
def resolvePath : JsValue → List (List Char) → JsValue
  | v, [] => v
  | v, p :: ps =>
    match v with
    | vNull => vUndef
    | vUndef => vUndef
    | v' => resolvePath (getProp v' p) ps

/-- `resolveValue(expr, ctx)` from `conditions.ts`. -/
def resolveValue (expr : List Char) (ctx : ConditionContext) : JsValue :=
  let trimmed := trimL expr
  if (hasPref [squote] trimmed && (trimmed.getLast? = some squote)) ||
     (hasPref [dquote] trimmed && (trimmed.getLast? = some dquote)) then
    vStr (String.mk ((trimmed.drop 1).dropLast))
  else if isNumLit trimmed then
    vNum (parseNumLit trimmed)
  else if trimmed = ("true").data then vBool true
  else if trimmed = ("false").data then vBool false
  else if trimmed = ("null").data then vNull
  else if hasPref ['('] trimmed && (trimmed.getLast? = some ')') then
    vStr (String.mk trimmed)
  else
    resolvePath (ctxVal ctx) (splitOnSub ['.'] trimmed)

/-- `compareValues(left, right, op)` from `conditions.ts`: `=`/`!=` are
strict equality; the order operators coerce both sides with `Number(...)`
and any `NaN` (`none`) makes the comparison false. -/
def compareValues (l r : JsValue) (op : List Char) : Bool :=
  if op = ("=").data then jsStrictEq l r
  else if op = ("!=").data then !(jsStrictEq l r)
  else if op = ("<").data then
    match jsToNumber l, jsToNumber r with
    | some a, some b => decide (a < b)
    | _, _ => false
  else if op = (">").data then
    match jsToNumber l, jsToNumber r with
    | some a, some b => decide (a > b)
    | _, _ => false
  else if op = ("<=").data then
    match jsToNumber l, jsToNumber r with
    | some a, some b => decide (a ≤ b)
    | _, _ => false
  else if op = (">=").data then
    match jsToNumber l, jsToNumber r with
    | some a, some b => decide (a ≥ b)
    | _, _ => false
  else false

/-- Strip one leading and one trailing quote character
(the regex `/^['"]|['"]$/g` of the IN-list parser). -/
def stripQuotes (l : List Char) : List Char :=
  let a := if hasPref [squote] l || hasPref [dquote] l then l.drop 1 else l
  match a.getLast? with
  | some c => if c = squote || c = dquote then a.dropLast else a
  | none => a

/-! ### The condition evaluator (`conditions.ts`) -/

def sAND : List Char := (" AND ").data
def sOR : List Char := (" OR ").data
def sNOT : List Char := ("NOT ").data
def sISNOTNULL : List Char := (" IS NOT NULL").data
def sISNULL : List Char := (" IS NULL").data
def sIN : List Char := (" IN ").data

/-- The ` IN ` branch of `evaluateCondition`: split on the first ` IN `
occurrences, take the first two parts as left/right, resolve both; an array
right side is a membership test, a string right side starting with `(` is
parsed as a quoted literal list and matched against `String(left)`. -/
def evalInExpr (expr : List Char) (ctx : ConditionContext) : Bool :=
  let parts := (splitOnSub sIN expr).map trimL
  let left := parts.getD 0 []
  let right := parts.getD 1 []
  let leftValue := resolveValue left ctx
  let rightValue := resolveValue right ctx
  match rightValue with
  | vArr xs => xs.any (fun x => jsStrictEq x leftValue)
  | vStr s =>
    if hasPref ['('] s.data then
      let items := (splitOnSub [','] ((s.data.drop 1).dropLast)).map
        (fun it => stripQuotes (trimL it))
      items.any (fun it => String.mk it = jsToString leftValue)
    else false
  | _ => false

/-- One comparison-operator branch of `evaluateCondition`: split on the
spaced operator, take the first two parts, trim, resolve, compare. -/
def evalCmp (sep op expr : List Char) (ctx : ConditionContext) : Bool :=
  let parts := (splitOnSub sep expr).map trimL
  compareValues (resolveValue (parts.getD 0 []) ctx)
    (resolveValue (parts.getD 1 []) ctx) op

/-- `evaluateCondition` from `conditions.ts`, with a fuel parameter that
makes the split-and-recurse structure of the original manifestly total.  The
theorem `evalCondF_fuel_eq` below shows the result does not depend on the
fuel once it exceeds the expression length, which is how
`evaluateCondition` instantiates it. -/
def evalCondF : ℕ → List Char → ConditionContext → Bool
  | 0, _, _ => false
  | n + 1, s, ctx =>
    let expr := trimL s
    if containsSub sAND expr then
      (splitOnSub sAND expr).all (fun part => evalCondF n (trimL part) ctx)
    else if containsSub sOR expr then
      (splitOnSub sOR expr).any (fun part => evalCondF n (trimL part) ctx)
    else if hasPref sNOT expr then
      !(evalCondF n (trimL (expr.drop 4)) ctx)
    else if containsSub sISNOTNULL expr then
      (match resolveValue (trimL (replaceFirst sISNOTNULL expr)) ctx with
       | vNull => false
       | vUndef => false
       | _ => true)
    else if containsSub sISNULL expr then
      (match resolveValue (trimL (replaceFirst sISNULL expr)) ctx with
       | vNull => true
       | vUndef => true
       | _ => false)
    else if containsSub sIN expr then evalInExpr expr ctx
    else if containsSub (" != ").data expr then evalCmp (" != ").data ("!=").data expr ctx
    else if containsSub (" <= ").data expr then evalCmp (" <= ").data ("<=").data expr ctx
    else if containsSub (" >= ").data expr then evalCmp (" >= ").data (">=").data expr ctx
    else if containsSub (" = ").data expr then evalCmp (" = ").data ("=").data expr ctx
    else if containsSub (" < ").data expr then evalCmp (" < ").data ("<").data expr ctx
    else if containsSub (" > ").data expr then evalCmp (" > ").data (">").data expr ctx
    else jsTruthy (resolveValue expr ctx)

/-- `evaluateCondition(expression, ctx)`: the fuel `length + 1` always
suffices, because every recursive call of the original is on a strictly
shorter string. -/
def evaluateCondition (expression : String) (ctx : ConditionContext) : Bool :=
  evalCondF (expression.data.length + 1) expression.data ctx

theorem list_all_congr {α : Type _} {l : List α} {f g : α → Bool}
    (h : ∀ x ∈ l, f x = g x) : l.all f = l.all g := by
  induction l with
  | nil => rfl
  | cons a as ih =>
    simp only [List.all_cons]
    rw [h a (List.mem_cons_self a as), ih (fun x hx => h x (List.mem_cons_of_mem a hx))]

theorem list_any_congr {α : Type _} {l : List α} {f g : α → Bool}
    (h : ∀ x ∈ l, f x = g x) : l.any f = l.any g := by
  induction l with
  | nil => rfl
  | cons a as ih =>
    simp only [List.any_cons]
    rw [h a (List.mem_cons_self a as), ih (fun x hx => h x (List.mem_cons_of_mem a hx))]

/-! ### The policy engine (`policy-engine.ts`) -/

inductive ConditionType where
  | allow_if
  | deny_if
  | require
  deriving DecidableEq, Repr

inductive PolicyEffect where
  | allow
  | deny
  deriving DecidableEq, Repr

structure PolicyCondition where
  type : ConditionType
  expression : String
  message : Option String := none

structure PolicyRule where
  name : String
  resource : String
  action : Option String := none
  effect : PolicyEffect
  conditions : Option (List PolicyCondition) := none
  filter : Option String := none
  priority : Option Int := none

structure RoleDefinition where
  name : String
  inherits : Option (List String) := none
  permissions : Option (List String) := none
  can : Option (List String) := none

structure PolicyContext where
  userId : Option String := none
  tenantId : Option String := none
  roles : List String
  resource : Option String := none
  action : Option String := none
  resourceData : Option (List (String × JsValue)) := none
  requestData : Option (List (String × JsValue)) := none

structure PolicyResult where
  allowed : Bool
  reason : Option String := none
  filters : Option (List String) := none
  deriving DecidableEq, Repr

/-- Engine state: the policy list (kept sorted descending by priority by the
constructor and `addPolicy`) and the role map (a JS `Map`, modelled as an
association list with unique keys; `Map.get` is the first-match lookup). -/
structure PolicyEngine where
  policies : List PolicyRule
  roles : List (String × RoleDefinition)

/-- Stable insertion into a descending-priority list (used to model the
constructor's sort; modern JS engines' `Array.prototype.sort` is stable). -/
def insertByPriority (p : PolicyRule) : List PolicyRule → List PolicyRule
  | [] => [p]
  | q :: qs =>
    if (p.priority.getD 0) > (q.priority.getD 0) then p :: q :: qs
    else q :: insertByPriority p qs

/-- `policies.sort((a, b) => (b.priority || 0) - (a.priority || 0))`. -/
def sortByPriority (l : List PolicyRule) : List PolicyRule :=
  l.foldl (fun acc p => insertByPriority p acc) []

/-- The `PolicyEngine` constructor. -/
def mkPolicyEngine (policies : List PolicyRule) (roles : List (String × RoleDefinition)) :
    PolicyEngine :=
  { policies := sortByPriority policies, roles := roles }

/-- JS truthiness of an optional string (`undefined` and `""` are falsy). -/
def jsTruthyOptStr : Option String → Bool
  | none => false
  | some s => s ≠ ""

/-- The admin bypass test at the top of `evaluate`. -/
def adminBypass (ctx : PolicyContext) : Bool :=
  ctx.roles.contains "admin" || ctx.roles.contains "super_admin"

/-- The `conditionCtx` record `evaluate` builds for each policy. -/
def mkConditionContext (ctx : PolicyContext) : ConditionContext :=
  { user := vObj [
      ("id", match ctx.userId with | some s => vStr s | none => vUndef),
      ("tenant_id", match ctx.tenantId with | some s => vStr s | none => vUndef),
      ("roles", vArr (ctx.roles.map vStr))],
    resource := vObj (ctx.resourceData.getD []),
    request := vObj (ctx.requestData.getD []) }

/-- The visited/permission state threaded through the role traversal.  The
JS `Set` preserves insertion order; it is modelled as a duplicate-free list
with `addElem` as `Set.add`. -/
structure RoleWalkState where
  visited : List String
  perms : List String

def addElem (l : List String) (x : String) : List String :=
  if x ∈ l then l else l ++ [x]

/-- Number of keys of the role map not yet visited: the strictly decreasing
part of the traversal's termination measure. -/
def unvisitedKeyCount (rm : List (String × RoleDefinition)) (visited : List String) : ℕ :=
  ((rm.map Prod.fst).filter (fun k => !visited.contains k)).length

theorem filter_imp_length_le {l : List String} {p q : String → Bool}
    (h : ∀ x, p x = true → q x = true) :
    (l.filter p).length ≤ (l.filter q).length := by
  induction l with
  | nil => simp
  | cons a as ih =>
    by_cases hp : p a = true
    · rw [List.filter_cons_of_pos hp, List.filter_cons_of_pos (h a hp)]
      simpa using ih
    · rw [List.filter_cons_of_neg (by simpa using hp)]
      cases hq : q a with
      | true => rw [List.filter_cons_of_pos hq]; simp; omega
      | false => rw [List.filter_cons_of_neg (by simp [hq])]; exact ih

theorem filter_imp_length_lt {l : List String} {p q : String → Bool} {a : String}
    (h : ∀ x, p x = true → q x = true) (ha : a ∈ l) (hqa : q a = true)
    (hpa : p a = false) :
    (l.filter p).length < (l.filter q).length := by
  induction l with
  | nil => simp at ha
  | cons b bs ih =>
    rcases List.mem_cons.mp ha with rfl | ha'
    · rw [List.filter_cons_of_neg (by simp [hpa]), List.filter_cons_of_pos hqa]
      have := filter_imp_length_le (l := bs) h
      simp
      omega
    · by_cases hp : p b = true
      · rw [List.filter_cons_of_pos hp, List.filter_cons_of_pos (h b hp)]
        simpa using ih ha'
      · rw [List.filter_cons_of_neg (by simpa using hp)]
        cases hq : q b with
        | true =>
          rw [List.filter_cons_of_pos hq]
          have := ih ha'
          simp
          omega
        | false => rw [List.filter_cons_of_neg (by simp [hq])]; exact ih ha'

theorem mem_addElem {l : List String} {x y : String} :
    y ∈ addElem l x ↔ y ∈ l ∨ y = x := by
  unfold addElem
  by_cases h : x ∈ l
  · rw [if_pos h]
    constructor
    · exact Or.inl
    · rintro (hy | rfl)
      · exact hy
      · exact h
  · rw [if_neg h]
    simp

theorem unvisitedKeyCount_le_of_addElem (rm : List (String × RoleDefinition))
    (visited : List String) (x : String) :
    unvisitedKeyCount rm (addElem visited x) ≤ unvisitedKeyCount rm visited := by
  apply filter_imp_length_le
  intro k hk
  simp at hk ⊢
  intro hmem
  exact hk (mem_addElem.mpr (Or.inl hmem))

theorem unvisitedKeyCount_lt_of_addElem {rm : List (String × RoleDefinition)}
    {visited : List String} {x : String}
    (hkey : x ∈ rm.map Prod.fst) (hnv : x ∉ visited) :
    unvisitedKeyCount rm (addElem visited x) < unvisitedKeyCount rm visited := by
  apply filter_imp_length_lt (a := x)
  · intro k hk
    simp at hk ⊢
    intro hmem
    exact hk (mem_addElem.mpr (Or.inl hmem))
  · exact hkey
  · simp [hnv]
  · simp [mem_addElem]

theorem mem_keys_of_lookup {α : Type _} {rm : List (String × α)} {name : String} {v : α}
    (h : rm.lookup name = some v) : name ∈ rm.map Prod.fst := by
  induction rm with
  | nil => simp [List.lookup] at h
  | cons a as ih =>
    rw [List.lookup] at h
    by_cases hk : name == a.1
    · simp at hk
      simp [hk]
    · rw [Bool.not_eq_true] at hk
      rw [hk] at h
      simp [ih h]

/-- The depth-first traversal of `getEffectivePermissions`, rendered as a
worklist: popping a visited name skips it; popping an unvisited name marks
it visited, contributes its `permissions` and `can` lists to the running
set, and pushes its `inherits` parents in front of the remaining worklist
(which is exactly the call order of the recursive original).  The
visited-set guard makes this terminate for every role map, cyclic
inheritance included. -/
def walkRoles (rm : List (String × RoleDefinition)) :
    List String → RoleWalkState → RoleWalkState
  | [], st => st
  | name :: rest, st =>
    if name ∈ st.visited then walkRoles rm rest st
    else
      let st1 : RoleWalkState := ⟨st.visited ++ [name], st.perms⟩
      match hlk : rm.lookup name with
      | none => walkRoles rm rest st1
      | some role =>
        let permsWithOwn := (role.permissions.getD []).foldl addElem st1.perms
        let permsWithCan := (role.can.getD []).foldl addElem permsWithOwn
        walkRoles rm ((role.inherits.getD []) ++ rest) ⟨st1.visited, permsWithCan⟩
termination_by l st => (unvisitedKeyCount rm st.visited, l.length)
decreasing_by
  · apply Prod.Lex.right
    simp
  · rcases Nat.lt_or_ge (unvisitedKeyCount rm (st.visited ++ [name])) (unvisitedKeyCount rm st.visited) with hlt | hge
    · exact Prod.Lex.left _ _ hlt
    · have hle : unvisitedKeyCount rm (st.visited ++ [name]) ≤ unvisitedKeyCount rm st.visited := by
        have := unvisitedKeyCount_le_of_addElem rm st.visited name
        unfold addElem at this
        rwa [if_neg (by assumption)] at this
      have heq : unvisitedKeyCount rm (st.visited ++ [name]) = unvisitedKeyCount rm st.visited := le_antisymm hle hge
      rw [heq]
      apply Prod.Lex.right
      simp
  · apply Prod.Lex.left
    have hkey : name ∈ rm.map Prod.fst := mem_keys_of_lookup (by assumption)
    have := unvisitedKeyCount_lt_of_addElem hkey (by assumption)
    unfold addElem at this
    rwa [if_neg (by assumption)] at this

/-- `getEffectivePermissions(roleNames)`: union (in DFS discovery order) of
the `permissions` and `can` lists of every role reachable from the
requested names through `inherits`. -/
def getEffectivePermissions (rm : List (String × RoleDefinition))
    (roleNames : List String) : List String :=
  (walkRoles rm roleNames ⟨[], []⟩).perms

/-- Reachability in the role-inheritance graph: `RoleReach rm a c` holds when
`c` is `a` itself or is obtained by repeatedly following the `inherits`
parents of roles found in the role map. -/
inductive RoleReach (rm : List (String × RoleDefinition)) : String → String → Prop where
  | refl (s : String) : RoleReach rm s s
  | step {a b c : String} {r : RoleDefinition} :
      RoleReach rm a b → rm.lookup b = some r → c ∈ r.inherits.getD [] →
      RoleReach rm a c

theorem RoleReach.trans {rm : List (String × RoleDefinition)} {a b c : String}
    (h1 : RoleReach rm a b) (h2 : RoleReach rm b c) : RoleReach rm a c := by
  induction h2 with
  | refl => exact h1
  | step _ hlk hmem ih => exact RoleReach.step ih hlk hmem

theorem mem_foldl_addElem {x : String} :
    ∀ (l init : List String), x ∈ List.foldl addElem init l ↔ x ∈ init ∨ x ∈ l := by
  intro l
  induction l with
  | nil => simp
  | cons a as ih =>
    intro init
    rw [List.foldl_cons, ih (addElem init a), mem_addElem]
    constructor
    · rintro ((h | rfl) | h)
      · exact Or.inl h
      · exact Or.inr (List.mem_cons_self _ _)
      · exact Or.inr (List.mem_cons_of_mem _ h)
    · rintro (h | h)
      · exact Or.inl (Or.inl h)
      · rcases List.mem_cons.mp h with rfl | h'
        · exact Or.inl (Or.inr rfl)
        · exact Or.inr h'

theorem nodup_addElem {l : List String} {x : String} (h : l.Nodup) :
    (addElem l x).Nodup := by
  unfold addElem
  by_cases hx : x ∈ l
  · rwa [if_pos hx]
  · rw [if_neg hx]
    simpa [List.nodup_append] using ⟨h, fun hmem => hx hmem⟩

theorem nodup_foldl_addElem {init : List String} (h : init.Nodup) :
    ∀ (l : List String), (List.foldl addElem init l).Nodup := by
  intro l
  induction l generalizing init with
  | nil => simpa
  | cons a as ih => exact ih (nodup_addElem h)

theorem walkRoles_nil (rm : List (String × RoleDefinition)) (st : RoleWalkState) :
    walkRoles rm [] st = st := by
  rw [walkRoles]

theorem walkRoles_cons_visited {rm : List (String × RoleDefinition)}
    {name : String} {rest : List String} {st : RoleWalkState}
    (h : name ∈ st.visited) :
    walkRoles rm (name :: rest) st = walkRoles rm rest st := by
  rw [walkRoles, if_pos h]

theorem walkRoles_cons_none {rm : List (String × RoleDefinition)}
    {name : String} {rest : List String} {st : RoleWalkState}
    (h1 : name ∉ st.visited) (h2 : rm.lookup name = none) :
    walkRoles rm (name :: rest) st =
      walkRoles rm rest ⟨st.visited ++ [name], st.perms⟩ := by
  rw [walkRoles, if_neg h1]
  split
  · rfl
  · next role heq => rw [h2] at heq; exact absurd heq (by simp)

theorem walkRoles_cons_some {rm : List (String × RoleDefinition)}
    {name : String} {rest : List String} {st : RoleWalkState} {role : RoleDefinition}
    (h1 : name ∉ st.visited) (h2 : rm.lookup name = some role) :
    walkRoles rm (name :: rest) st =
      walkRoles rm (role.inherits.getD [] ++ rest)
        ⟨st.visited ++ [name],
         List.foldl addElem (List.foldl addElem st.perms (role.permissions.getD []))
           (role.can.getD [])⟩ := by
  rw [walkRoles, if_neg h1]
  split
  · next heq => rw [h2] at heq; exact absurd heq (by simp)
  · next r heq =>
      rw [h2] at heq
      simp only [Option.some.injEq] at heq
      subst heq
      rfl

theorem walkRoles_visited_mono (rm : List (String × RoleDefinition)) :
    ∀ (l : List String) (st : RoleWalkState),
      ∀ x ∈ st.visited, x ∈ (walkRoles rm l st).visited := by
  intro l st
  induction l, st using walkRoles.induct rm with
  | case1 st => intro x hx; rw [walkRoles_nil]; exact hx
  | case2 name rest st hmem ih =>
    intro x hx
    rw [walkRoles_cons_visited hmem]
    exact ih x hx
  | case3 name rest st hmem st1 hlk ih =>
    intro x hx
    rw [walkRoles_cons_none hmem hlk]
    exact ih x (List.mem_append.mpr (Or.inl hx))
  | case4 name rest st hmem st1 role hlk p1 p2 ih =>
    intro x hx
    rw [walkRoles_cons_some hmem hlk]
    exact ih x (List.mem_append.mpr (Or.inl hx))

theorem walkRoles_perms_mono (rm : List (String × RoleDefinition)) :
    ∀ (l : List String) (st : RoleWalkState),
      ∀ x ∈ st.perms, x ∈ (walkRoles rm l st).perms := by
  intro l st
  induction l, st using walkRoles.induct rm with
  | case1 st => intro x hx; rw [walkRoles_nil]; exact hx
  | case2 name rest st hmem ih =>
    intro x hx
    rw [walkRoles_cons_visited hmem]
    exact ih x hx
  | case3 name rest st hmem st1 hlk ih =>
    intro x hx
    rw [walkRoles_cons_none hmem hlk]
    exact ih x hx
  | case4 name rest st hmem st1 role hlk p1 p2 ih =>
    intro x hx
    rw [walkRoles_cons_some hmem hlk]
    apply ih
    rw [mem_foldl_addElem, mem_foldl_addElem]
    exact Or.inl (Or.inl hx)

theorem walkRoles_worklist_visited (rm : List (String × RoleDefinition)) :
    ∀ (l : List String) (st : RoleWalkState),
      ∀ x ∈ l, x ∈ (walkRoles rm l st).visited := by
  intro l st
  induction l, st using walkRoles.induct rm with
  | case1 st => intro x hx; simp at hx
  | case2 name rest st hmem ih =>
    intro x hx
    rw [walkRoles_cons_visited hmem]
    rcases List.mem_cons.mp hx with rfl | hx'
    · exact walkRoles_visited_mono rm rest st x hmem
    · exact ih x hx'
  | case3 name rest st hmem st1 hlk ih =>
    intro x hx
    rw [walkRoles_cons_none hmem hlk]
    rcases List.mem_cons.mp hx with rfl | hx'
    · exact walkRoles_visited_mono rm rest _ x (List.mem_append.mpr (Or.inr (by simp)))
    · exact ih x hx'
  | case4 name rest st hmem st1 role hlk p1 p2 ih =>
    intro x hx
    rw [walkRoles_cons_some hmem hlk]
    rcases List.mem_cons.mp hx with rfl | hx'
    · exact walkRoles_visited_mono rm _ _ x (List.mem_append.mpr (Or.inr (by simp)))
    · exact ih x (List.mem_append.mpr (Or.inr hx'))

/-- The closure invariant of the traversal: if every already-visited role's
parents are either visited or still on the worklist (and its contributions
are already collected), then after the walk finishes every visited role's
parents are visited and its contributions are collected. -/
theorem walkRoles_closure (rm : List (String × RoleDefinition)) :
    ∀ (l : List String) (st : RoleWalkState),
      (∀ v ∈ st.visited, ∀ r, rm.lookup v = some r →
        (∀ p ∈ r.inherits.getD [], p ∈ st.visited ∨ p ∈ l) ∧
        (∀ x, (x ∈ r.permissions.getD [] ∨ x ∈ r.can.getD []) → x ∈ st.perms)) →
      (∀ v ∈ (walkRoles rm l st).visited, ∀ r, rm.lookup v = some r →
        (∀ p ∈ r.inherits.getD [], p ∈ (walkRoles rm l st).visited) ∧
        (∀ x, (x ∈ r.permissions.getD [] ∨ x ∈ r.can.getD []) →
          x ∈ (walkRoles rm l st).perms)) := by
  intro l st
  induction l, st using walkRoles.induct rm with
  | case1 st =>
    intro hinv v hv r hr
    rw [walkRoles_nil] at hv ⊢
    obtain ⟨h1, h2⟩ := hinv v hv r hr
    refine ⟨fun p hp => ?_, h2⟩
    rcases h1 p hp with h | h
    · exact h
    · simp at h
  | case2 name rest st hmem ih =>
    intro hinv
    rw [walkRoles_cons_visited hmem]
    apply ih
    intro v hv r hr
    obtain ⟨h1, h2⟩ := hinv v hv r hr
    refine ⟨fun p hp => ?_, h2⟩
    rcases h1 p hp with h | h
    · exact Or.inl h
    · rcases List.mem_cons.mp h with rfl | h'
      · exact Or.inl hmem
      · exact Or.inr h'
  | case3 name rest st hmem st1 hlk ih =>
    intro hinv
    rw [walkRoles_cons_none hmem hlk]
    apply ih
    intro v hv r hr
    rcases List.mem_append.mp hv with hv' | hv'
    · obtain ⟨h1, h2⟩ := hinv v hv' r hr
      refine ⟨fun p hp => ?_, h2⟩
      rcases h1 p hp with h | h
      · exact Or.inl (List.mem_append.mpr (Or.inl h))
      · rcases List.mem_cons.mp h with rfl | h'
        · exact Or.inl (List.mem_append.mpr (Or.inr (by simp)))
        · exact Or.inr h'
    · simp at hv'
      subst hv'
      rw [hlk] at hr
      exact absurd hr (by simp)
  | case4 name rest st hmem st1 role hlk p1 p2 ih =>
    intro hinv
    rw [walkRoles_cons_some hmem hlk]
    apply ih
    intro v hv r hr
    rcases List.mem_append.mp hv with hv' | hv'
    · obtain ⟨h1, h2⟩ := hinv v hv' r hr
      refine ⟨fun p hp => ?_, fun x hx => ?_⟩
      · rcases h1 p hp with h | h
        · exact Or.inl (List.mem_append.mpr (Or.inl h))
        · rcases List.mem_cons.mp h with rfl | h'
          · exact Or.inl (List.mem_append.mpr (Or.inr (by simp)))
          · exact Or.inr (List.mem_append.mpr (Or.inr h'))
      · rw [mem_foldl_addElem, mem_foldl_addElem]
        exact Or.inl (Or.inl (h2 x hx))
    · simp at hv'
      subst hv'
      rw [hlk] at hr
      simp only [Option.some.injEq] at hr
      subst hr
      refine ⟨fun p hp => Or.inr (List.mem_append.mpr (Or.inl hp)), fun x hx => ?_⟩
      rw [mem_foldl_addElem, mem_foldl_addElem]
      rcases hx with hx | hx
      · exact Or.inl (Or.inr hx)
      · exact Or.inr hx

/-- Soundness of the traversal: every collected permission either was
already in the state or is contributed by a role reachable from the
worklist. -/
theorem walkRoles_sound (rm : List (String × RoleDefinition)) :
    ∀ (l : List String) (st : RoleWalkState) (x : String),
      x ∈ (walkRoles rm l st).perms →
      x ∈ st.perms ∨ ∃ s r, (∃ t ∈ l, RoleReach rm t s) ∧ rm.lookup s = some r ∧
        (x ∈ r.permissions.getD [] ∨ x ∈ r.can.getD []) := by
  intro l st
  induction l, st using walkRoles.induct rm with
  | case1 st =>
    intro x hx
    rw [walkRoles_nil] at hx
    exact Or.inl hx
  | case2 name rest st hmem ih =>
    intro x hx
    rw [walkRoles_cons_visited hmem] at hx
    rcases ih x hx with h | ⟨s, r, ⟨t, ht, hreach⟩, hlk2, hx2⟩
    · exact Or.inl h
    · exact Or.inr ⟨s, r, ⟨t, List.mem_cons_of_mem _ ht, hreach⟩, hlk2, hx2⟩
  | case3 name rest st hmem st1 hlk ih =>
    intro x hx
    rw [walkRoles_cons_none hmem hlk] at hx
    rcases ih x hx with h | ⟨s, r, ⟨t, ht, hreach⟩, hlk2, hx2⟩
    · exact Or.inl h
    · exact Or.inr ⟨s, r, ⟨t, List.mem_cons_of_mem _ ht, hreach⟩, hlk2, hx2⟩
  | case4 name rest st hmem st1 role hlk p1 p2 ih =>
    intro x hx
    rw [walkRoles_cons_some hmem hlk] at hx
    rcases ih x hx with h | ⟨s, r, ⟨t, ht, hreach⟩, hlk2, hx2⟩
    · rw [mem_foldl_addElem, mem_foldl_addElem] at h
      rcases h with (h | h) | h
      · exact Or.inl h
      · exact Or.inr ⟨name, role, ⟨name, List.mem_cons_self _ _, RoleReach.refl name⟩,
          hlk, Or.inl h⟩
      · exact Or.inr ⟨name, role, ⟨name, List.mem_cons_self _ _, RoleReach.refl name⟩,
          hlk, Or.inr h⟩
    · rcases List.mem_append.mp ht with ht' | ht'
      · refine Or.inr ⟨s, r, ⟨name, List.mem_cons_self _ _, ?_⟩, hlk2, hx2⟩
        exact RoleReach.trans (RoleReach.step (RoleReach.refl name) hlk ht') hreach
      · exact Or.inr ⟨s, r, ⟨t, List.mem_cons_of_mem _ ht', hreach⟩, hlk2, hx2⟩

theorem walkRoles_nodup (rm : List (String × RoleDefinition)) :
    ∀ (l : List String) (st : RoleWalkState),
      st.perms.Nodup → (walkRoles rm l st).perms.Nodup := by
  intro l st
  induction l, st using walkRoles.induct rm with
  | case1 st => intro h; rw [walkRoles_nil]; exact h
  | case2 name rest st hmem ih =>
    intro h
    rw [walkRoles_cons_visited hmem]
    exact ih h
  | case3 name rest st hmem st1 hlk ih =>
    intro h
    rw [walkRoles_cons_none hmem hlk]
    exact ih h
  | case4 name rest st hmem st1 role hlk p1 p2 ih =>
    intro h
    rw [walkRoles_cons_some hmem hlk]
    exact ih (nodup_foldl_addElem (nodup_foldl_addElem h _) _)

/-- Membership characterization of `getEffectivePermissions`: exactly the
permissions and `can` actions of the roles reachable from the requested
names. -/
theorem getEffectivePermissions_mem_iff (rm : List (String × RoleDefinition))
    (names : List String) (x : String) :
    x ∈ getEffectivePermissions rm names ↔
      ∃ s r, (∃ t ∈ names, RoleReach rm t s) ∧ rm.lookup s = some r ∧
        (x ∈ r.permissions.getD [] ∨ x ∈ r.can.getD []) := by
  constructor
  · intro hx
    rcases walkRoles_sound rm names ⟨[], []⟩ x hx with h | h
    · simp at h
    · exact h
  · rintro ⟨s, r, ⟨t, ht, hreach⟩, hlk, hx⟩
    have hclosed := walkRoles_closure rm names ⟨[], []⟩ (by intro v hv; simp at hv)
    have hvis : ∀ u, RoleReach rm t u → u ∈ (walkRoles rm names ⟨[], []⟩).visited := by
      intro u hu
      induction hu with
      | refl => exact walkRoles_worklist_visited rm names ⟨[], []⟩ t ht
      | step _ hlk2 hmem2 ih => exact (hclosed _ ih _ hlk2).1 _ hmem2
    exact (hclosed s (hvis s hreach) r hlk).2 x hx

/-- The RBAC gate of `evaluate`: deny when an action is specified (and
truthy) but the effective permission set has neither the action nor `*`. -/
def rbacDenies (engine : PolicyEngine) (ctx : PolicyContext) : Bool :=
  match ctx.action with
  | none => false
  | some a =>
    a ≠ "" &&
      !((getEffectivePermissions engine.roles ctx.roles).contains a ||
        (getEffectivePermissions engine.roles ctx.roles).contains "*")

/-- The applicable-policy filter of `evaluate`: resource matches (`*` or
equal) and action matches (absent/falsy, `*`, or equal). -/
def applicablePolicies (engine : PolicyEngine) (ctx : PolicyContext) : List PolicyRule :=
  engine.policies.filter (fun p =>
    (p.resource = "*" || ctx.resource = some p.resource) &&
    (match p.action with
     | none => true
     | some a => a = "" || a = "*" || ctx.action = some a))

/-- The inner `for (const condition of policy.conditions || [])` loop:
returns the `conditionsPassed` flag and the first deny event (a true
`deny_if` or a failed `require`), whose message is the reason.  A failed
`allow_if` clears the flag but does not stop the scan. -/
def evalPolicyConditions (cctx : ConditionContext) (pname : String) :
    List PolicyCondition → Bool × Option String
  | [] => (true, none)
  | c :: rest =>
    match c.type with
    | ConditionType.deny_if =>
      if evaluateCondition c.expression cctx then
        (false, some (c.message.getD pname))
      else evalPolicyConditions cctx pname rest
    | ConditionType.allow_if =>
      if !(evaluateCondition c.expression cctx) then
        let r := evalPolicyConditions cctx pname rest
        (false, r.2)
      else evalPolicyConditions cctx pname rest
    | ConditionType.require =>
      if !(evaluateCondition c.expression cctx) then
        (false, some (c.message.getD ("Requirement not met: " ++ pname)))
      else evalPolicyConditions cctx pname rest

/-- Outcome of the policy loop: either it broke on an explicit deny (with
its reason), or it finished with the accumulated filters and the
explicit-allow flag. -/
inductive PolicyLoopOutcome where
  | denied (reason : String)
  | finished (filters : List String) (explicitAllow : Bool)
  deriving DecidableEq, Repr

/-- The `for (const policy of applicablePolicies)` loop of `evaluate`. -/
def runPolicies (cctx : ConditionContext) :
    List PolicyRule → List String → Bool → PolicyLoopOutcome
  | [], filters, explicitAllow => PolicyLoopOutcome.finished filters explicitAllow
  | p :: rest, filters, explicitAllow =>
    match evalPolicyConditions cctx p.name (p.conditions.getD []) with
    | (_, some reason) => PolicyLoopOutcome.denied reason
    | (conditionsPassed, none) =>
      if conditionsPassed then
        match p.effect with
        | PolicyEffect.allow =>
          runPolicies cctx rest
            (filters ++ (match p.filter with
              | some f => if f = "" then [] else [f]
              | none => [])) true
        | PolicyEffect.deny => PolicyLoopOutcome.denied p.name
      else runPolicies cctx rest filters explicitAllow

/-- `PolicyEngine.evaluate(ctx)` from `policy-engine.ts`. -/
def PolicyEngine.evaluate (engine : PolicyEngine) (ctx : PolicyContext) : PolicyResult :=
  if adminBypass ctx then
    { allowed := true, reason := some "Admin role" }
  else if rbacDenies engine ctx then
    { allowed := false,
      reason := some ("No role permission for action: " ++ (ctx.action.getD "")) }
  else
    let aps := applicablePolicies engine ctx
    match runPolicies (mkConditionContext ctx) aps [] false with
    | PolicyLoopOutcome.denied reason => { allowed := false, reason := some reason }
    | PolicyLoopOutcome.finished filters explicitAllow =>
      if explicitAllow || aps.isEmpty then
        { allowed := true, filters := some filters }
      else
        { allowed := false, reason := some "No matching allow policy" }

/-- `addPolicy`: push, then re-sort by priority (stable). -/
def PolicyEngine.addPolicy (engine : PolicyEngine) (p : PolicyRule) : PolicyEngine :=
  { engine with policies := sortByPriority (engine.policies ++ [p]) }

/-- `addRole`: `Map.set` (overwrite or append). -/
def PolicyEngine.addRole (engine : PolicyEngine) (name : String) (role : RoleDefinition) :
    PolicyEngine :=
  { engine with
    roles :=
      if (engine.roles.lookup name).isSome then
        engine.roles.map (fun kv => if kv.1 = name then (name, role) else kv)
      else engine.roles ++ [(name, role)] }

/-- Fuel irrelevance: any two sufficient fuels agree.  This is the totality
("never throws, never hangs") part of the evaluator's contract. -/
theorem evalCondF_fuel_eq :
    ∀ (k : ℕ) (s : List Char) (ctx : ConditionContext) (m n : ℕ),
      s.length ≤ k → s.length < m → s.length < n →
      evalCondF m s ctx = evalCondF n s ctx := by
  intro k
  induction k with
  | zero =>
    intro s ctx m n hk hm hn
    have hs : s = [] := List.eq_nil_of_length_eq_zero (Nat.le_zero.mp hk)
    subst hs
    obtain ⟨m', rfl⟩ : ∃ m', m = m' + 1 := ⟨m - 1, by omega⟩
    obtain ⟨n', rfl⟩ : ∃ n', n = n' + 1 := ⟨n - 1, by omega⟩
    rfl
  | succ k ih =>
    intro s ctx m n hk hm hn
    obtain ⟨m', rfl⟩ : ∃ m', m = m' + 1 := ⟨m - 1, by omega⟩
    obtain ⟨n', rfl⟩ : ∃ n', n = n' + 1 := ⟨n - 1, by omega⟩
    have hm' : s.length ≤ m' := by omega
    have hn' : s.length ≤ n' := by omega
    have htrim := trimL_length_le s
    simp only [evalCondF]
    by_cases hand : containsSub sAND (trimL s) = true
    · simp only [hand, if_true]
      apply list_all_congr
      intro x hx
      have hlt := mem_splitOnSub_length_lt hand x hx
      have hxle := trimL_length_le x
      exact ih (trimL x) ctx m' n' (by omega) (by omega) (by omega)
    · rw [Bool.not_eq_true] at hand
      simp only [hand, Bool.false_eq_true, if_false]
      by_cases hor : containsSub sOR (trimL s) = true
      · simp only [hor, if_true]
        apply list_any_congr
        intro x hx
        have hlt := mem_splitOnSub_length_lt hor x hx
        have hxle := trimL_length_le x
        exact ih (trimL x) ctx m' n' (by omega) (by omega) (by omega)
      · rw [Bool.not_eq_true] at hor
        simp only [hor, Bool.false_eq_true, if_false]
        by_cases hnot : hasPref sNOT (trimL s) = true
        · simp only [hnot, if_true]
          have h4 : 4 ≤ (trimL s).length := hasPref_length hnot
          have hdrop : ((trimL s).drop 4).length = (trimL s).length - 4 := by
            simp
          have hxle := trimL_length_le ((trimL s).drop 4)
          rw [ih (trimL ((trimL s).drop 4)) ctx m' n' (by omega) (by omega) (by omega)]
        · rw [Bool.not_eq_true] at hnot
          simp only [hnot, Bool.false_eq_true, if_false]

/-- A policy at which the loop of `evaluate` does not break: its condition
scan produced no deny event, and it is not a passing `deny`-effect policy. -/
def policyContinues (cctx : ConditionContext) (q : PolicyRule) : Bool :=
  match evalPolicyConditions cctx q.name (q.conditions.getD []) with
  | (_, some _) => false
  | (passed, none) => !(passed && decide (q.effect = PolicyEffect.deny))

theorem evalPolicyConditions_append_deny (cctx : ConditionContext) (pname : String)
    (cpre : List PolicyCondition) (c : PolicyCondition) (csuf : List PolicyCondition)
    (hpre : (evalPolicyConditions cctx pname cpre).2 = none)
    (hc : c.type = ConditionType.deny_if)
    (hctrue : evaluateCondition c.expression cctx = true) :
    (evalPolicyConditions cctx pname (cpre ++ c :: csuf)).2 =
      some (c.message.getD pname) := by
  induction cpre with
  | nil =>
    obtain ⟨ctype, cexpr, cmsg⟩ := c
    simp only at hc hctrue
    subst hc
    simp only [List.nil_append, evalPolicyConditions]
    simp [hctrue]
  | cons d ds ih =>
    obtain ⟨dtype, dexpr, dmsg⟩ := d
    rw [List.cons_append]
    rw [evalPolicyConditions] at hpre ⊢
    dsimp only at hpre ⊢
    cases dtype with
    | deny_if =>
      cases he : evaluateCondition dexpr cctx with
      | true => simp [he] at hpre
      | false =>
        simp only [he, Bool.false_eq_true, if_false] at hpre ⊢
        exact ih hpre
    | allow_if =>
      cases he : evaluateCondition dexpr cctx with
      | true =>
        simp only [he, Bool.not_true, Bool.false_eq_true, if_false] at hpre ⊢
        exact ih hpre
      | false =>
        simp only [he, Bool.not_false, if_true] at hpre ⊢
        exact ih hpre
    | require =>
      cases he : evaluateCondition dexpr cctx with
      | true =>
        simp only [he, Bool.not_true, Bool.false_eq_true, if_false] at hpre ⊢
        exact ih hpre
      | false => simp [he] at hpre

theorem runPolicies_denies (cctx : ConditionContext) (reason : String) :
    ∀ (pre : List PolicyRule) (p : PolicyRule) (post : List PolicyRule)
      (filters : List String) (ea : Bool),
      (∀ q ∈ pre, policyContinues cctx q = true) →
      (evalPolicyConditions cctx p.name (p.conditions.getD [])).2 = some reason →
      runPolicies cctx (pre ++ p :: post) filters ea = PolicyLoopOutcome.denied reason := by
  intro pre
  induction pre with
  | nil =>
    intro p post filters ea _ hp
    rw [List.nil_append, runPolicies]
    obtain ⟨b, hb⟩ : ∃ b, evalPolicyConditions cctx p.name (p.conditions.getD []) = (b, some reason) :=
      ⟨(evalPolicyConditions cctx p.name (p.conditions.getD [])).1, by
        rw [← hp]⟩
    rw [hb]
  | cons q qs ih =>
    intro p post filters ea hpre hp
    rw [List.cons_append, runPolicies]
    have hq := hpre q (List.mem_cons_self q qs)
    unfold policyContinues at hq
    cases hscan : evalPolicyConditions cctx q.name (q.conditions.getD []) with
    | mk passed deny =>
      cases deny with
      | some r => rw [hscan] at hq; simp at hq
      | none =>
        rw [hscan] at hq
        simp only [Bool.not_eq_true', Bool.and_eq_false_iff] at hq
        cases passed with
        | false =>
          simp only [if_neg (by simp : ¬(false = true))]
          exact ih p post filters ea (fun x hx => hpre x (List.mem_cons_of_mem q hx)) hp
        | true =>
          simp only [if_pos rfl]
          cases heff : q.effect with
          | allow =>
            exact ih p post _ _ (fun x hx => hpre x (List.mem_cons_of_mem q hx)) hp
          | deny =>
            exfalso
            rcases hq with h | h
            · simp at h
            · rw [heff] at h; simp at h

/-- Claim C4 (theorem): with the admin bypass and the RBAC gate both passed,
if the first deny event in the priority-ordered applicable-policy scan is a
`deny_if` condition `c` of policy `p` that evaluates true, then `evaluate`
returns `allowed: false` with `c`'s message (or `p`'s name) as the reason —
regardless of what the remaining (lower-priority) policies, allows
included, would have produced. -/
theorem evaluate_first_deny_if_wins (engine : PolicyEngine) (ctx : PolicyContext)
    (pre : List PolicyRule) (p : PolicyRule) (post : List PolicyRule)
    (cpre : List PolicyCondition) (c : PolicyCondition) (csuf : List PolicyCondition)
    (hadmin : adminBypass ctx = false)
    (hrbac : rbacDenies engine ctx = false)
    (happ : applicablePolicies engine ctx = pre ++ p :: post)
    (hpre : ∀ q ∈ pre, policyContinues (mkConditionContext ctx) q = true)
    (hconds : p.conditions.getD [] = cpre ++ c :: csuf)
    (hcpre : (evalPolicyConditions (mkConditionContext ctx) p.name cpre).2 = none)
    (hc : c.type = ConditionType.deny_if)
    (hctrue : evaluateCondition c.expression (mkConditionContext ctx) = true) :
    engine.evaluate ctx =
      { allowed := false, reason := some (c.message.getD p.name), filters := none } := by
  unfold PolicyEngine.evaluate
  rw [hadmin]
  simp only [Bool.false_eq_true, if_false]
  rw [hrbac]
  simp only [Bool.false_eq_true, if_false, happ]
  have hscan : (evalPolicyConditions (mkConditionContext ctx) p.name (p.conditions.getD [])).2 =
      some (c.message.getD p.name) := by
    rw [hconds]
    exact evalPolicyConditions_append_deny _ _ _ _ _ hcpre hc hctrue
  rw [runPolicies_denies (mkConditionContext ctx) _ pre p post [] false hpre hscan]

def denyTruePolicy : PolicyRule :=
  { name := "denyTrue"
    resource := "doc"
    effect := PolicyEffect.allow
    conditions := some [⟨ConditionType.deny_if, "true", some "blocked"⟩]
    priority := some 5 }

def allowDocPolicy : PolicyRule :=
  { name := "allowDoc"
    resource := "doc"
    effect := PolicyEffect.allow
    filter := some "user.tenant_id = resource.tenant_id"
    priority := some 1 }

def docUserCtx : PolicyContext := { roles := ["user"], resource := some "doc" }

/-- Witness for C4 at a concrete engine: a high-priority policy whose
`deny_if true` fires beats a lower-priority allow policy. -/
theorem evaluate_first_deny_if_wins_witness :
    (mkPolicyEngine [allowDocPolicy, denyTruePolicy] []).evaluate docUserCtx =
      { allowed := false, reason := some "blocked", filters := none } := by
  exact evaluate_first_deny_if_wins (mkPolicyEngine [allowDocPolicy, denyTruePolicy] [])
    docUserCtx [] denyTruePolicy [allowDocPolicy] []
    ⟨ConditionType.deny_if, "true", some "blocked"⟩ []
    rfl rfl rfl (by intro q hq; simp at hq) rfl rfl rfl rfl

/-- Claim C2 (theorem): no admin role, RBAC satisfied (when an action is
specified it is in the effective permission set or that set has `*`), and no
applicable policy: `evaluate` returns `allowed: true` with the (empty)
accumulated filter list — default-permit when unconfigured. -/
theorem evaluate_default_permit (engine : PolicyEngine) (ctx : PolicyContext)
    (hadmin : "admin" ∉ ctx.roles ∧ "super_admin" ∉ ctx.roles)
    (hperm : ∀ a, ctx.action = some a →
      ((getEffectivePermissions engine.roles ctx.roles).contains a ||
       (getEffectivePermissions engine.roles ctx.roles).contains "*") = true)
    (happ : applicablePolicies engine ctx = []) :
    engine.evaluate ctx = { allowed := true, reason := none, filters := some [] } := by
  unfold PolicyEngine.evaluate
  have hb : adminBypass ctx = false := by
    unfold adminBypass
    simp [hadmin.1, hadmin.2]
  have hrbac : rbacDenies engine ctx = false := by
    unfold rbacDenies
    cases hA : ctx.action with
    | none => rfl
    | some a =>
      have h := hperm a hA
      dsimp only
      rw [h]
      simp
  rw [hb]
  simp only [Bool.false_eq_true, if_false]
  rw [hrbac]
  simp only [Bool.false_eq_true, if_false, happ]
  rfl

/-- Witness for C2: an engine whose one policy targets a different resource,
queried by a role whose `can` list contains the requested action. -/
theorem evaluate_default_permit_witness :
    (mkPolicyEngine [denyTruePolicy] [("viewer", ⟨"viewer", none, none, some ["list_orders"]⟩)]).evaluate
      { roles := ["viewer"], action := some "list_orders", resource := some "Order" } =
      { allowed := true, reason := none, filters := some [] } := by
  apply evaluate_default_permit
  · exact ⟨by decide, by decide⟩
  · intro a ha
    simp only [Option.some.injEq] at ha
    subst ha
    have hmem : "list_orders" ∈ getEffectivePermissions
        [("viewer", ⟨"viewer", none, none, some ["list_orders"]⟩)] ["viewer"] := by
      rw [getEffectivePermissions_mem_iff]
      exact ⟨"viewer", ⟨"viewer", none, none, some ["list_orders"]⟩,
        ⟨"viewer", by simp, RoleReach.refl "viewer"⟩, by rfl, Or.inr (by simp)⟩
    rw [Bool.or_eq_true]
    exact Or.inl (List.elem_iff.mpr hmem)
  · rfl

/-- Claim C10 (theorem): a context whose role set contains `admin` or
`super_admin` is allowed immediately with reason "Admin role" and no
`filters` field; no policy conditions or filters are consulted on this
path. -/
theorem evaluate_admin_bypass_no_filters (engine : PolicyEngine) (ctx : PolicyContext)
    (h : "admin" ∈ ctx.roles ∨ "super_admin" ∈ ctx.roles) :
    engine.evaluate ctx = { allowed := true, reason := some "Admin role", filters := none } := by
  unfold PolicyEngine.evaluate
  have hb : adminBypass ctx = true := by
    unfold adminBypass
    rcases h with h | h <;> simp [h]
  rw [hb]
  rfl

/-- Witness for C10: an admin caller is allowed even against an engine whose
only applicable policy would deny, and receives no filters entry. -/
theorem evaluate_admin_bypass_no_filters_witness :
    (mkPolicyEngine [denyTruePolicy] []).evaluate
      { roles := ["admin"], action := some "delete_everything", resource := some "doc" } =
      { allowed := true, reason := some "Admin role", filters := none } :=
  evaluate_admin_bypass_no_filters _ _ (Or.inl (by decide))

/-! ### The rate limiter (`rate-limit.ts`)

Times are Unix-epoch milliseconds (`Date.now()`), modelled as `ℕ`.  The
`Map` store is an association list updated with `Map.set` overwrite
semantics.  Each operation takes `now` explicitly; within one `consume` the
source reads `Date.now()` twice, which this model treats as the same
millisecond (sub-call clock drift is not observable in any documented
behaviour). -/

structure RateLimitConfig where
  requestsPerMinute : ℕ
  burst : Option ℕ := none
  scope : String
  deriving DecidableEq, Repr

structure RateLimitResult where
  allowed : Bool
  remaining : ℤ
  resetAt : ℕ
  retryAfter : Option ℕ := none
  deriving DecidableEq, Repr

structure RateLimitEntry where
  count : ℕ
  resetAt : ℕ
  deriving DecidableEq, Repr

/-- The in-memory store keyed by the opaque rate key. -/
abbrev RateStore := List (String × RateLimitEntry)

/-- `windowMs = 60000` (fixed one-minute window). -/
def windowMs : ℕ := 60000

/-- `Map.set`: overwrite the existing entry or append a new one. -/
def storeSet (store : RateStore) (key : String) (e : RateLimitEntry) : RateStore :=
  if (store.lookup key).isSome then
    store.map (fun kv => if kv.1 = key then (key, e) else kv)
  else store ++ [(key, e)]

/-- The entry `check` works with: the stored one, or a fresh zero-count
window when the key is absent or its window expired. -/
def effEntry (store : RateStore) (key : String) (now : ℕ) : RateLimitEntry :=
  match store.lookup key with
  | some e => if now > e.resetAt then ⟨0, now + windowMs⟩ else e
  | none => ⟨0, now + windowMs⟩

/-- The entry `consume` writes back when the check allowed: a fresh
one-count window when absent/expired, otherwise the stored count plus one. -/
def bumpEntry (store : RateStore) (key : String) (now : ℕ) : RateLimitEntry :=
  match store.lookup key with
  | some e => if now > e.resetAt then ⟨1, now + windowMs⟩ else ⟨e.count + 1, e.resetAt⟩
  | none => ⟨1, now + windowMs⟩

/-- `RateLimiter.check(key)`: read-only peek.  The allowed quota is
`requestsPerMinute + (burst || 0)`; on a denial `retryAfter` is the ceiling
in whole seconds of the remaining window time. -/
def RateLimiter.check (config : RateLimitConfig) (store : RateStore) (key : String)
    (now : ℕ) : RateLimitResult :=
  let maxRequests := config.requestsPerMinute + config.burst.getD 0
  let entry := effEntry store key now
  let remaining : ℤ := max 0 ((maxRequests : ℤ) - entry.count)
  if entry.count ≥ maxRequests then
    { allowed := false, remaining := 0, resetAt := entry.resetAt,
      retryAfter := some ((entry.resetAt - now + 999) / 1000) }
  else
    { allowed := true, remaining := remaining - 1, resetAt := entry.resetAt }

/-- `RateLimiter.consume(key)`: `check`, and if allowed, increment the
counter (creating/resetting the window entry if absent or expired). -/
def RateLimiter.consume (config : RateLimitConfig) (store : RateStore) (key : String)
    (now : ℕ) : RateLimitResult × RateStore :=
  let result := RateLimiter.check config store key now
  if result.allowed then (result, storeSet store key (bumpEntry store key now))
  else (result, store)

/-- `reset(key)`: drop the entry. -/
def RateLimiter.reset (store : RateStore) (key : String) : RateStore :=
  store.filter (fun kv => kv.1 ≠ key)

/-- `cleanup()`: purge expired entries. -/
def RateLimiter.cleanup (store : RateStore) (now : ℕ) : RateStore :=
  store.filter (fun kv => !(now > kv.2.resetAt))

theorem check_denied {config : RateLimitConfig} {store : RateStore} {key : String}
    {now : ℕ} (h : (effEntry store key now).count ≥ config.requestsPerMinute + config.burst.getD 0) :
    RateLimiter.check config store key now =
      { allowed := false, remaining := 0, resetAt := (effEntry store key now).resetAt,
        retryAfter := some (((effEntry store key now).resetAt - now + 999) / 1000) } := by
  unfold RateLimiter.check
  rw [if_pos h]

theorem check_allowed {config : RateLimitConfig} {store : RateStore} {key : String}
    {now : ℕ} (h : (effEntry store key now).count < config.requestsPerMinute + config.burst.getD 0) :
    RateLimiter.check config store key now =
      { allowed := true,
        remaining := max 0 (((config.requestsPerMinute + config.burst.getD 0 : ℕ) : ℤ) -
          (effEntry store key now).count) - 1,
        resetAt := (effEntry store key now).resetAt, retryAfter := none } := by
  unfold RateLimiter.check
  rw [if_neg (by omega)]

theorem consume_of_allowed {config : RateLimitConfig} {store : RateStore} {key : String}
    {now : ℕ} (h : (effEntry store key now).count < config.requestsPerMinute + config.burst.getD 0) :
    RateLimiter.consume config store key now =
      (RateLimiter.check config store key now, storeSet store key (bumpEntry store key now)) := by
  unfold RateLimiter.consume
  rw [check_allowed h]
  rfl

theorem consume_of_denied {config : RateLimitConfig} {store : RateStore} {key : String}
    {now : ℕ} (h : (effEntry store key now).count ≥ config.requestsPerMinute + config.burst.getD 0) :
    RateLimiter.consume config store key now =
      (RateLimiter.check config store key now, store) := by
  unfold RateLimiter.consume
  rw [check_denied h]
  rfl

/-- `m` consecutive `consume` calls on one key at one instant, starting from
the empty store. -/
def consumeTimes (config : RateLimitConfig) (key : String) (now : ℕ) : ℕ → RateStore
  | 0 => []
  | m + 1 => (RateLimiter.consume config (consumeTimes config key now m) key now).2

theorem consumeTimes_spec (config : RateLimitConfig) (key : String) (now : ℕ)
    (quota : ℕ) (hq : config.requestsPerMinute + config.burst.getD 0 = quota) :
    ∀ m, consumeTimes config key now m =
      (if min m quota = 0 then []
       else [(key, ⟨min m quota, now + windowMs⟩)]) := by
  intro m
  induction m with
  | zero => simp [consumeTimes]
  | succ m ih =>
    rw [consumeTimes, ih]
    by_cases hmq : min m quota = 0
    · rw [if_pos hmq]
      have heff : effEntry [] key now = ⟨0, now + windowMs⟩ := by
        unfold effEntry
        simp
      by_cases hq0 : quota = 0
      · rw [consume_of_denied (by rw [heff, hq]; dsimp only; omega)]
        simp [hq0]
      · rw [consume_of_allowed (by rw [heff, hq]; dsimp only; omega)]
        simp only [storeSet, List.lookup_nil, Option.isSome_none, Bool.false_eq_true,
          if_false, List.nil_append]
        unfold bumpEntry
        simp only [List.lookup_nil]
        rw [if_neg (by omega)]
        have h1 : min (m + 1) quota = 1 := by omega
        rw [h1]
    · rw [if_neg hmq]
      have hmpos : 0 < min m quota := Nat.pos_of_ne_zero hmq
      have hqpos : 0 < quota := by omega
      have heff : effEntry [(key, ⟨min m quota, now + windowMs⟩)] key now =
          ⟨min m quota, now + windowMs⟩ := by
        unfold effEntry
        simp only [List.lookup_cons_self]
        rw [if_neg (by unfold windowMs; omega)]
      by_cases hfull : m ≥ quota
      · rw [consume_of_denied (by rw [heff, hq]; dsimp only; omega)]
        have h2 : min (m + 1) quota = min m quota := by omega
        rw [if_neg (by omega), h2]
      · rw [consume_of_allowed (by rw [heff, hq]; dsimp only; omega)]
        simp only [storeSet, List.lookup_cons_self, Option.isSome_some, if_true,
          List.map_cons, if_pos rfl, List.map_nil]
        unfold bumpEntry
        simp only [List.lookup_cons_self]
        rw [if_neg (by unfold windowMs; omega)]
        rw [if_neg (by omega)]
        have h3 : min m quota = m := by omega
        have h4 : min (m + 1) quota = m + 1 := by omega
        rw [h3, h4]

/-! ### The spec data model (`types/spec.ts`)

Restricted to the fields the linker and validator read (the other fields of
the TypeScript interfaces are template-rendering data that the core never
touches).  `Record<string, T>` maps are association lists in document
order, i.e. JS object key insertion order; JS objects have unique keys.
Optional (`?`) fields are `Option`s; at use sites the JS truthiness of an
optional string (absent or `""` is falsy) is modelled explicitly. -/

structure FieldReference where
  entity : String
  field : Option String := none
  deriving DecidableEq, Repr

structure FieldSpec where
  type : String := "string"
  required : Option Bool := none
  primary : Option Bool := none
  reference : Option FieldReference := none
  deriving DecidableEq, Repr

structure RelationSpec where
  type : String := "has_many"
  target : String
  through : Option String := none
  deriving DecidableEq, Repr

structure EntitySpec where
  description : Option String := none
  tenant_scoped : Option Bool := none
  immutable : Option Bool := none
  ai_suggest_only : Option Bool := none
  fields : List (String × FieldSpec)
  relations : Option (List (String × RelationSpec)) := none
  deriving DecidableEq, Repr

structure ActionAuthSpec where
  required : Option Bool := none
  roles : Option (List String) := none
  permissions : Option (List String) := none
  deriving DecidableEq, Repr

structure ActionRateLimitSpec where
  requests_per_minute : Option ℕ := none
  burst : Option ℕ := none
  scope : Option String := none
  deriving DecidableEq, Repr

structure ActionSpec where
  type : String
  description : Option String := none
  entity : Option String := none
  idempotent : Option Bool := none
  auth : Option ActionAuthSpec := none
  rate_limit : Option ActionRateLimitSpec := none
  triggers_job : Option String := none
  deriving DecidableEq, Repr

structure TransitionSpec where
  target : String
  action : Option String := none
  deriving DecidableEq, Repr

structure OnEnterSpec where
  action : Option String := none
  deriving DecidableEq, Repr

structure StepSpec where
  screen : String
  transitions : Option (List (String × TransitionSpec)) := none
  on_enter : Option OnEnterSpec := none
  deriving DecidableEq, Repr

structure FlowSpec where
  name : String
  steps : List (String × StepSpec)
  initial_step : Option String := none
  deriving DecidableEq, Repr

structure RoleSpec where
  name : String
  inherits : Option (List String) := none
  permissions : Option (List String) := none
  can : Option (List String) := none
  deriving DecidableEq, Repr

structure PolicySpec where
  resource : String
  effect : Option String := none
  priority : Option Int := none
  deriving DecidableEq, Repr

/-- `ai_rules`: the core reads only the keys of the `entities` and
`actions` records, so only the keys are carried. -/
structure AiRulesSpec where
  entities : Option (List String) := none
  actions : Option (List String) := none
  deriving DecidableEq, Repr

structure PoliciesSpec where
  roles : Option (List (String × RoleSpec)) := none
  policies : Option (List (String × PolicySpec)) := none
  ai_rules : Option AiRulesSpec := none
  deriving DecidableEq, Repr

structure ScreenSpec where
  layout_type : String := "list"
  entity : Option String := none
  load_action : Option String := none
  submit_action : Option String := none
  deriving DecidableEq, Repr

structure UiSpec where
  screens : Option (List (String × ScreenSpec)) := none
  deriving DecidableEq, Repr

/-- The metrics document is only shape-checked by the (external) schema
validator; the core reads none of it. -/
structure MetricsSpec where
  deriving DecidableEq, Repr

structure JobSpec where
  queue : Option String := none
  dead_letter_queue : Option String := none
  triggers : Option (List String) := none
  deriving DecidableEq, Repr

/-- `jobs.queues`: the core reads only the keys. -/
structure JobsSpec where
  jobs : Option (List (String × JobSpec)) := none
  queues : Option (List String) := none
  deriving DecidableEq, Repr

structure TenancySpec where
  mode : String
  isolation : String := "row"
  tenant_id_column : Option String := none
  deriving DecidableEq, Repr

structure ProfileConfig where
  require_idempotency : Option Bool := none
  require_rate_limits : Option Bool := none
  strict_tenancy : Option Bool := none
  deriving DecidableEq, Repr

structure ProfilesSpec where
  dev : Option ProfileConfig := none
  prod : Option ProfileConfig := none
  deriving DecidableEq, Repr

structure ProductSpec where
  name : String
  version : String
  tenancy : TenancySpec
  profile : String
  profiles : Option ProfilesSpec := none
  deriving DecidableEq, Repr

structure Spec where
  product : ProductSpec
  entities : List (String × EntitySpec)
  actions : List (String × ActionSpec)
  flows : List (String × FlowSpec)
  policies : PoliciesSpec
  ui : UiSpec
  metrics : MetricsSpec
  jobs : JobsSpec
  deriving DecidableEq, Repr

/-! ### JSON serialization of a spec (`JSON.stringify(spec, null, 0)`)

`JSON.stringify` renders object keys in insertion order and omits keys
whose value is `undefined`; map entries are rendered in list order, which
is how this model carries JS key order.  (For the record fields themselves
the model uses a fixed construction order; the hash claims below vary only
map key order, which the model represents faithfully.) -/

/-- JSON string escaping (quote and backslash; the specs this file
evaluates contain no control characters). -/
def jsonEscape (s : String) : String :=
  String.mk (s.data.flatMap (fun c =>
    if c = dquote then ['\\', dquote]
    else if c = '\\' then ['\\', '\\']
    else [c]))

mutual

def jsonStringify : JsValue → String
  | vStr s => String.mk [dquote] ++ jsonEscape s ++ String.mk [dquote]
  | vNum q => numToString q
  | vBool b => if b then "true" else "false"
  | vNull => "null"
  | vUndef => "undefined"
  | vArr xs => "[" ++ jsonStringifyList xs ++ "]"
  | vObj fs => "\x7b" ++ jsonStringifyFields fs ++ "\x7d"

def jsonStringifyList : List JsValue → String
  | [] => ""
  | [x] => jsonStringify x
  | x :: xs => jsonStringify x ++ "," ++ jsonStringifyList xs

def jsonStringifyFields : List (String × JsValue) → String
  | [] => ""
  | [(k, v)] => String.mk [dquote] ++ jsonEscape k ++ String.mk [dquote] ++ ":" ++ jsonStringify v
  | (k, v) :: fs =>
    String.mk [dquote] ++ jsonEscape k ++ String.mk [dquote] ++ ":" ++ jsonStringify v ++ "," ++
      jsonStringifyFields fs

end

/-- Code-point lexicographic order on strings (what JS string comparison
gives on the ASCII keys of these documents), used by the canonical key
sort. -/
def charListLt : List Char → List Char → Bool
  | [], [] => false
  | [], _ :: _ => true
  | _ :: _, [] => false
  | a :: as, b :: bs =>
    if a.toNat < b.toNat then true
    else if b.toNat < a.toNat then false
    else charListLt as bs

def strLt (a b : String) : Bool := charListLt a.data b.data

/-- Stable insertion (by key, ascending) used by the canonicalization. -/
def insertByKey (p : String × JsValue) : List (String × JsValue) → List (String × JsValue)
  | [] => [p]
  | q :: qs => if strLt p.1 q.1 then p :: q :: qs else q :: insertByKey p qs

def sortFieldsByKey (l : List (String × JsValue)) : List (String × JsValue) :=
  l.foldr insertByKey []

mutual

/-- Modelled from the spec: recursive key sorting ("canonicalize before
hashing (sort keys recursively)"), which §4.4 requires of the hash input
but which `computeHash` in `spec-linker.ts` does not perform. -/
def sortKeys : JsValue → JsValue
  | vArr xs => vArr (sortKeysList xs)
  | vObj fs => vObj (sortFieldsByKey (sortKeysFields fs))
  | v => v

def sortKeysList : List JsValue → List JsValue
  | [] => []
  | x :: xs => sortKeys x :: sortKeysList xs

def sortKeysFields : List (String × JsValue) → List (String × JsValue)
  | [] => []
  | (k, v) :: fs => (k, sortKeys v) :: sortKeysFields fs

end

/-- Modelled from the spec: the canonical (recursively key-sorted) JSON
serialization over which §4.4 says the hash digest must be computed. -/
def canonicalJsonStringify (v : JsValue) : String :=
  jsonStringify (sortKeys v)

/-- Render an optional field: `undefined` keys are omitted by
`JSON.stringify`. -/
def optField (k : String) : Option JsValue → List (String × JsValue)
  | none => []
  | some v => [(k, v)]

def jStrList (l : List String) : JsValue :=
  vArr (l.map vStr)

def fieldReferenceToJson (r : FieldReference) : JsValue :=
  vObj ([("entity", vStr r.entity)] ++ optField "field" (r.field.map vStr))

def fieldSpecToJson (f : FieldSpec) : JsValue :=
  vObj ([("type", vStr f.type)] ++
    optField "required" (f.required.map vBool) ++
    optField "primary" (f.primary.map vBool) ++
    optField "reference" (f.reference.map fieldReferenceToJson))

def relationSpecToJson (r : RelationSpec) : JsValue :=
  vObj ([("type", vStr r.type), ("target", vStr r.target)] ++
    optField "through" (r.through.map vStr))

def entitySpecToJson (e : EntitySpec) : JsValue :=
  vObj (optField "description" (e.description.map vStr) ++
    optField "tenant_scoped" (e.tenant_scoped.map vBool) ++
    optField "immutable" (e.immutable.map vBool) ++
    optField "ai_suggest_only" (e.ai_suggest_only.map vBool) ++
    [("fields", vObj (e.fields.map (fun kv => (kv.1, fieldSpecToJson kv.2))))] ++
    optField "relations" (e.relations.map (fun rs =>
      vObj (rs.map (fun kv => (kv.1, relationSpecToJson kv.2))))))

def actionAuthToJson (a : ActionAuthSpec) : JsValue :=
  vObj (optField "required" (a.required.map vBool) ++
    optField "roles" (a.roles.map jStrList) ++
    optField "permissions" (a.permissions.map jStrList))

def actionRateLimitToJson (r : ActionRateLimitSpec) : JsValue :=
  vObj (optField "requests_per_minute" (r.requests_per_minute.map (fun n => vNum n)) ++
    optField "burst" (r.burst.map (fun n => vNum n)) ++
    optField "scope" (r.scope.map vStr))

def actionSpecToJson (a : ActionSpec) : JsValue :=
  vObj ([("type", vStr a.type)] ++
    optField "description" (a.description.map vStr) ++
    optField "entity" (a.entity.map vStr) ++
    optField "idempotent" (a.idempotent.map vBool) ++
    optField "auth" (a.auth.map actionAuthToJson) ++
    optField "rate_limit" (a.rate_limit.map actionRateLimitToJson) ++
    optField "triggers_job" (a.triggers_job.map vStr))

def transitionSpecToJson (t : TransitionSpec) : JsValue :=
  vObj ([("target", vStr t.target)] ++ optField "action" (t.action.map vStr))

def stepSpecToJson (s : StepSpec) : JsValue :=
  vObj ([("screen", vStr s.screen)] ++
    optField "transitions" (s.transitions.map (fun ts =>
      vObj (ts.map (fun kv => (kv.1, transitionSpecToJson kv.2))))) ++
    optField "on_enter" (s.on_enter.map (fun oe =>
      vObj (optField "action" (oe.action.map vStr)))))

def flowSpecToJson (f : FlowSpec) : JsValue :=
  vObj ([("name", vStr f.name),
    ("steps", vObj (f.steps.map (fun kv => (kv.1, stepSpecToJson kv.2))))] ++
    optField "initial_step" (f.initial_step.map vStr))

def roleSpecToJson (r : RoleSpec) : JsValue :=
  vObj ([("name", vStr r.name)] ++
    optField "inherits" (r.inherits.map jStrList) ++
    optField "permissions" (r.permissions.map jStrList) ++
    optField "can" (r.can.map jStrList))

def policySpecToJson (p : PolicySpec) : JsValue :=
  vObj ([("resource", vStr p.resource)] ++
    optField "effect" (p.effect.map vStr) ++
    optField "priority" (p.priority.map (fun n => vNum n)))

def aiRulesToJson (a : AiRulesSpec) : JsValue :=
  vObj (optField "entities" (a.entities.map (fun ks => vObj (ks.map (fun k => (k, vObj []))))) ++
    optField "actions" (a.actions.map (fun ks => vObj (ks.map (fun k => (k, vObj []))))))

def policiesSpecToJson (p : PoliciesSpec) : JsValue :=
  vObj (optField "roles" (p.roles.map (fun rs =>
      vObj (rs.map (fun kv => (kv.1, roleSpecToJson kv.2))))) ++
    optField "policies" (p.policies.map (fun ps =>
      vObj (ps.map (fun kv => (kv.1, policySpecToJson kv.2))))) ++
    optField "ai_rules" (p.ai_rules.map aiRulesToJson))

def screenSpecToJson (s : ScreenSpec) : JsValue :=
  vObj ([("layout_type", vStr s.layout_type)] ++
    optField "entity" (s.entity.map vStr) ++
    optField "load_action" (s.load_action.map vStr) ++
    optField "submit_action" (s.submit_action.map vStr))

def uiSpecToJson (u : UiSpec) : JsValue :=
  vObj (optField "screens" (u.screens.map (fun ss =>
    vObj (ss.map (fun kv => (kv.1, screenSpecToJson kv.2))))))

def jobSpecToJson (j : JobSpec) : JsValue :=
  vObj (optField "queue" (j.queue.map vStr) ++
    optField "dead_letter_queue" (j.dead_letter_queue.map vStr) ++
    optField "triggers" (j.triggers.map jStrList))

def jobsSpecToJson (j : JobsSpec) : JsValue :=
  vObj (optField "jobs" (j.jobs.map (fun js =>
      vObj (js.map (fun kv => (kv.1, jobSpecToJson kv.2))))) ++
    optField "queues" (j.queues.map (fun ks => vObj (ks.map (fun k => (k, vObj []))))))

def tenancyToJson (t : TenancySpec) : JsValue :=
  vObj ([("mode", vStr t.mode), ("isolation", vStr t.isolation)] ++
    optField "tenant_id_column" (t.tenant_id_column.map vStr))

def profileConfigToJson (c : ProfileConfig) : JsValue :=
  vObj (optField "require_idempotency" (c.require_idempotency.map vBool) ++
    optField "require_rate_limits" (c.require_rate_limits.map vBool) ++
    optField "strict_tenancy" (c.strict_tenancy.map vBool))

def productSpecToJson (p : ProductSpec) : JsValue :=
  vObj ([("name", vStr p.name), ("version", vStr p.version),
    ("tenancy", tenancyToJson p.tenancy), ("profile", vStr p.profile)] ++
    optField "profiles" (p.profiles.map (fun ps =>
      vObj (optField "dev" (ps.dev.map profileConfigToJson) ++
        optField "prod" (ps.prod.map profileConfigToJson)))))

def specToJson (s : Spec) : JsValue :=
  vObj [("product", productSpecToJson s.product),
    ("entities", vObj (s.entities.map (fun kv => (kv.1, entitySpecToJson kv.2)))),
    ("actions", vObj (s.actions.map (fun kv => (kv.1, actionSpecToJson kv.2)))),
    ("flows", vObj (s.flows.map (fun kv => (kv.1, flowSpecToJson kv.2)))),
    ("policies", policiesSpecToJson s.policies),
    ("ui", uiSpecToJson s.ui),
    ("metrics", vObj []),
    ("jobs", jobsSpecToJson s.jobs)]

/-! ### The spec linker (`spec-linker.ts`) -/

inductive LinkErrorType where
  | missing_reference
  | circular_reference
  | invalid_relation
  | invariant_violation
  deriving DecidableEq, Repr

structure LinkError where
  type : LinkErrorType
  message : String
  source : String
  target : Option String := none
  deriving DecidableEq, Repr

inductive LinkWarningType where
  | unused
  | shadowed
  | deprecated
  deriving DecidableEq, Repr

structure LinkWarning where
  type : LinkWarningType
  message : String
  path : String
  deriving DecidableEq, Repr

structure BundleMeta where
  version : String
  generated_at : String
  hash : String
  deriving DecidableEq, Repr

structure SpecBundle where
  spec : Spec
  meta : BundleMeta
  deriving DecidableEq, Repr

structure LinkResult where
  valid : Bool
  errors : List LinkError
  warnings : List LinkWarning
  bundle : Option SpecBundle

/-- `field.reference.field || 'id'`-style defaulting (JS `||`: absent or
empty string falls back). -/
def orDefaultStr (o : Option String) (d : String) : String :=
  match o with
  | some s => if s = "" then d else s
  | none => d

/-- Key presence in an association-list record (`spec.entities[name]`
truthiness: the values are objects, hence truthy whenever present). -/
def hasKey {α : Type _} (m : List (String × α)) (k : String) : Bool :=
  (m.lookup k).isSome

def validateEntityReferences (spec : Spec) : List LinkError :=
  spec.entities.flatMap (fun en =>
    en.2.fields.flatMap (fun fn =>
      match fn.2.reference with
      | none => []
      | some ref =>
        match spec.entities.lookup ref.entity with
        | none =>
          [{ type := LinkErrorType.missing_reference,
             message := "Entity \"" ++ ref.entity ++ "\" referenced by field \"" ++ fn.1 ++
               "\" does not exist",
             source := "entities." ++ en.1 ++ ".fields." ++ fn.1,
             target := some ("entities." ++ ref.entity) }]
        | some targetEntity =>
          let targetField := orDefaultStr ref.field "id"
          if hasKey targetEntity.fields targetField then []
          else
            [{ type := LinkErrorType.missing_reference,
               message := "Field \"" ++ targetField ++ "\" in entity \"" ++ ref.entity ++
                 "\" does not exist",
               source := "entities." ++ en.1 ++ ".fields." ++ fn.1,
               target := some ("entities." ++ ref.entity ++ ".fields." ++ targetField) }]) ++
    (en.2.relations.getD []).flatMap (fun rn =>
      (if hasKey spec.entities rn.2.target then []
       else
         [{ type := LinkErrorType.missing_reference,
            message := "Relation target \"" ++ rn.2.target ++ "\" does not exist",
            source := "entities." ++ en.1 ++ ".relations." ++ rn.1,
            target := some ("entities." ++ rn.2.target) }]) ++
      (match rn.2.through with
       | some thr =>
         if thr ≠ "" && !(hasKey spec.entities thr) then
           [{ type := LinkErrorType.missing_reference,
              message := "Through table \"" ++ thr ++ "\" does not exist",
              source := "entities." ++ en.1 ++ ".relations." ++ rn.1,
              target := some ("entities." ++ thr) }]
         else []
       | none => [])))

def validateActionReferences (spec : Spec) : List LinkError :=
  spec.actions.flatMap (fun an =>
    (match an.2.entity with
     | some e =>
       if e ≠ "" && !(hasKey spec.entities e) then
         [{ type := LinkErrorType.missing_reference,
            message := "Entity \"" ++ e ++ "\" referenced by action does not exist",
            source := "actions." ++ an.1,
            target := some ("entities." ++ e) }]
       else []
     | none => []) ++
    (match an.2.triggers_job with
     | some j =>
       if j ≠ "" && !(hasKey (spec.jobs.jobs.getD []) j) then
         [{ type := LinkErrorType.missing_reference,
            message := "Job \"" ++ j ++ "\" triggered by action does not exist",
            source := "actions." ++ an.1,
            target := some ("jobs." ++ j) }]
       else []
     | none => []) ++
    (match an.2.auth with
     | some auth =>
       (auth.roles.getD []).flatMap (fun role =>
         if hasKey (spec.policies.roles.getD []) role then []
         else
           [{ type := LinkErrorType.missing_reference,
              message := "Role \"" ++ role ++ "\" required by action does not exist",
              source := "actions." ++ an.1,
              target := some ("policies.roles." ++ role) }])
     | none => []))

def validateFlowReferences (spec : Spec) : List LinkError :=
  spec.flows.flatMap (fun fn =>
    fn.2.steps.flatMap (fun sn =>
      (if hasKey (spec.ui.screens.getD []) sn.2.screen then []
       else
         [{ type := LinkErrorType.missing_reference,
            message := "Screen \"" ++ sn.2.screen ++ "\" referenced by flow step does not exist",
            source := "flows." ++ fn.1 ++ ".steps." ++ sn.1,
            target := some ("ui.screens." ++ sn.2.screen) }]) ++
      (sn.2.transitions.getD []).flatMap (fun tn =>
        (if hasKey fn.2.steps tn.2.target then []
         else
           [{ type := LinkErrorType.missing_reference,
              message := "Step \"" ++ tn.2.target ++ "\" referenced by transition does not exist",
              source := "flows." ++ fn.1 ++ ".steps." ++ sn.1 ++ ".transitions." ++ tn.1,
              target := some ("flows." ++ fn.1 ++ ".steps." ++ tn.2.target) }]) ++
        (match tn.2.action with
         | some a =>
           if a ≠ "" && !(hasKey spec.actions a) then
             [{ type := LinkErrorType.missing_reference,
                message := "Action \"" ++ a ++ "\" referenced by transition does not exist",
                source := "flows." ++ fn.1 ++ ".steps." ++ sn.1 ++ ".transitions." ++ tn.1,
                target := some ("actions." ++ a) }]
           else []
         | none => [])) ++
      (match sn.2.on_enter with
       | some oe =>
         (match oe.action with
          | some a =>
            if a ≠ "" && !(hasKey spec.actions a) then
              [{ type := LinkErrorType.missing_reference,
                 message := "Action \"" ++ a ++ "\" referenced by on_enter does not exist",
                 source := "flows." ++ fn.1 ++ ".steps." ++ sn.1 ++ ".on_enter",
                 target := some ("actions." ++ a) }]
            else []
          | none => [])
       | none => [])) ++
    (match fn.2.initial_step with
     | some s0 =>
       if s0 ≠ "" && !(hasKey fn.2.steps s0) then
         [{ type := LinkErrorType.missing_reference,
            message := "Initial step \"" ++ s0 ++ "\" does not exist",
            source := "flows." ++ fn.1,
            target := some ("flows." ++ fn.1 ++ ".steps." ++ s0) }]
       else []
     | none => []))

def validatePolicyReferences (spec : Spec) : List LinkError :=
  (spec.policies.roles.getD []).flatMap (fun rn =>
    (rn.2.inherits.getD []).flatMap (fun parent =>
      if hasKey (spec.policies.roles.getD []) parent then []
      else
        [{ type := LinkErrorType.missing_reference,
           message := "Parent role \"" ++ parent ++ "\" does not exist",
           source := "policies.roles." ++ rn.1,
           target := some ("policies.roles." ++ parent) }]) ++
    (rn.2.can.getD []).flatMap (fun actionName =>
      if hasKey spec.actions actionName then []
      else
        [{ type := LinkErrorType.missing_reference,
           message := "Action \"" ++ actionName ++ "\" referenced in role.can does not exist",
           source := "policies.roles." ++ rn.1,
           target := some ("actions." ++ actionName) }])) ++
  (spec.policies.policies.getD []).flatMap (fun pn =>
    if hasKey spec.entities pn.2.resource then []
    else
      [{ type := LinkErrorType.missing_reference,
         message := "Entity \"" ++ pn.2.resource ++ "\" referenced by policy does not exist",
         source := "policies.policies." ++ pn.1,
         target := some ("entities." ++ pn.2.resource) }]) ++
  ((spec.policies.ai_rules.bind (fun a => a.entities)).getD []).flatMap (fun entityName =>
    if hasKey spec.entities entityName then []
    else
      [{ type := LinkErrorType.missing_reference,
         message := "Entity \"" ++ entityName ++ "\" in AI rules does not exist",
         source := "policies.ai_rules.entities." ++ entityName,
         target := some ("entities." ++ entityName) }]) ++
  ((spec.policies.ai_rules.bind (fun a => a.actions)).getD []).flatMap (fun actionName =>
    if hasKey spec.actions actionName then []
    else
      [{ type := LinkErrorType.missing_reference,
         message := "Action \"" ++ actionName ++ "\" in AI rules does not exist",
         source := "policies.ai_rules.actions." ++ actionName,
         target := some ("actions." ++ actionName) }])

def validateUiReferences (spec : Spec) : List LinkError :=
  (spec.ui.screens.getD []).flatMap (fun sn =>
    (match sn.2.entity with
     | some e =>
       if e ≠ "" && !(hasKey spec.entities e) then
         [{ type := LinkErrorType.missing_reference,
            message := "Entity \"" ++ e ++ "\" referenced by screen does not exist",
            source := "ui.screens." ++ sn.1,
            target := some ("entities." ++ e) }]
       else []
     | none => []) ++
    (match sn.2.load_action with
     | some a =>
       if a ≠ "" && !(hasKey spec.actions a) then
         [{ type := LinkErrorType.missing_reference,
            message := "Action \"" ++ a ++ "\" referenced by screen does not exist",
            source := "ui.screens." ++ sn.1,
            target := some ("actions." ++ a) }]
       else []
     | none => []) ++
    (match sn.2.submit_action with
     | some a =>
       if a ≠ "" && !(hasKey spec.actions a) then
         [{ type := LinkErrorType.missing_reference,
            message := "Action \"" ++ a ++ "\" referenced by screen does not exist",
            source := "ui.screens." ++ sn.1,
            target := some ("actions." ++ a) }]
       else []
     | none => []))

def validateJobReferences (spec : Spec) : List LinkError :=
  (spec.jobs.jobs.getD []).flatMap (fun jn =>
    (match jn.2.queue with
     | some q =>
       if q ≠ "" && q ≠ "default" && !((spec.jobs.queues.getD []).contains q) then
         [{ type := LinkErrorType.missing_reference,
            message := "Queue \"" ++ q ++ "\" referenced by job does not exist",
            source := "jobs." ++ jn.1,
            target := some ("jobs.queues." ++ q) }]
       else []
     | none => []) ++
    (match jn.2.dead_letter_queue with
     | some q =>
       if q ≠ "" && !((spec.jobs.queues.getD []).contains q) then
         [{ type := LinkErrorType.missing_reference,
            message := "Dead letter queue \"" ++ q ++ "\" does not exist",
            source := "jobs." ++ jn.1,
            target := some ("jobs.queues." ++ q) }]
       else []
     | none => []) ++
    (jn.2.triggers.getD []).flatMap (fun trigger =>
      if hasKey spec.actions trigger then []
      else
        [{ type := LinkErrorType.missing_reference,
           message := "Trigger action \"" ++ trigger ++ "\" does not exist",
           source := "jobs." ++ jn.1,
           target := some ("actions." ++ trigger) }]))

/-- The set of entities referenced by any action, screen, field reference
or relation (insertion order as the JS `Set` would hold it is irrelevant:
only membership is consulted). -/
def usedEntities (spec : Spec) : List String :=
  (spec.actions.filterMap (fun an => an.2.entity.bind (fun e => if e ≠ "" then some e else none))) ++
  ((spec.ui.screens.getD []).filterMap (fun sn =>
    sn.2.entity.bind (fun e => if e ≠ "" then some e else none))) ++
  (spec.entities.flatMap (fun en =>
    (en.2.fields.filterMap (fun fn => fn.2.reference.map (fun r => r.entity))) ++
    ((en.2.relations.getD []).flatMap (fun rn =>
      [rn.2.target] ++ (match rn.2.through with
        | some t => if t ≠ "" then [t] else []
        | none => [])))))

def checkUnused (spec : Spec) : List LinkWarning :=
  spec.entities.filterMap (fun en =>
    if (usedEntities spec).contains en.1 then none
    else
      some { type := LinkWarningType.unused,
             message := "Entity \"" ++ en.1 ++
               "\" is not referenced by any action, screen, or relation",
             path := "entities." ++ en.1 })

/-- The LedgerFlow journal invariants.  The multi-tenancy block of the
source inspects entities but pushes no errors, so it contributes nothing
here. -/
def checkInvariants (spec : Spec) : List LinkError :=
  let journalEntry :=
    (spec.entities.lookup "JournalEntry").or (spec.entities.lookup "journal_entry")
  let journalLine :=
    (spec.entities.lookup "JournalLine").or (spec.entities.lookup "journal_line")
  match journalEntry, journalLine with
  | some je, some jl =>
    let hasDebit := hasKey jl.fields "debit" || hasKey jl.fields "debit_amount"
    let hasCredit := hasKey jl.fields "credit" || hasKey jl.fields "credit_amount"
    (if !hasDebit || !hasCredit then
      [{ type := LinkErrorType.invariant_violation,
         message := "JournalLine must have both debit and credit fields for balance invariant",
         source := "entities.JournalLine" }]
     else []) ++
    (if !(je.immutable.getD false) && spec.product.profile = "prod" then
      [{ type := LinkErrorType.invariant_violation,
         message := "JournalEntry should be immutable in production for audit compliance",
         source := "entities.JournalEntry" }]
     else [])
  | _, _ => []

/-- `computeHash`: sha-256 over `JSON.stringify(spec, null, 0)`, truncated
to 16 hex characters.  The digest itself is cryptographic and is modelled
as an abstract function `hashFn` of the serialized string; everything the
claims say about the hash depends only on the serialized string the digest
is applied to. -/
def computeHash (hashFn : String → String) (spec : Spec) : String :=
  hashFn (jsonStringify (specToJson spec))

/-- `SpecLinker.link(spec)`.  `hashFn` abstracts the sha-256 digest and
`now` the `new Date().toISOString()` timestamp (both external
collaborators). -/
def SpecLinker.link (hashFn : String → String) (now : String) (spec : Spec) : LinkResult :=
  let errors :=
    validateEntityReferences spec ++
    validateActionReferences spec ++
    validateFlowReferences spec ++
    validatePolicyReferences spec ++
    validateUiReferences spec ++
    validateJobReferences spec ++
    checkInvariants spec
  let warnings := checkUnused spec
  if errors.length > 0 then
    { valid := false, errors := errors, warnings := warnings, bundle := none }
  else
    { valid := true, errors := errors, warnings := warnings,
      bundle := some
        { spec := spec,
          meta := { version := spec.product.version, generated_at := now,
                    hash := computeHash hashFn spec } } }

theorem consume_allowed_iff (config : RateLimitConfig) (store : RateStore) (key : String)
    (now : ℕ) :
    (RateLimiter.consume config store key now).1.allowed = true ↔
      (effEntry store key now).count < config.requestsPerMinute + config.burst.getD 0 := by
  by_cases h : (effEntry store key now).count < config.requestsPerMinute + config.burst.getD 0
  · rw [consume_of_allowed h, check_allowed h]
    simp [h]
  · rw [consume_of_denied (by omega), check_denied (by omega)]
    simp only [Bool.false_eq_true, false_iff]
    omega

/-! ### The spec validator (`spec-validator.ts`)

The per-document shape validation (`ajv` against schema files loaded from
disk) is an external collaborator per §4.5 of the specification ("treated
as an opaque external collaborator"); its output is abstracted as the
`schemaErrors` list that `validate` places in front of its own
profile-rule errors, exactly where the source accumulates them. -/

structure ValidationError where
  path : String
  message : String
  schemaPath : Option String := none
  deriving DecidableEq, Repr

structure ValidationWarning where
  path : String
  message : String
  suggestion : Option String := none
  deriving DecidableEq, Repr

structure ValidationResult where
  valid : Bool
  errors : List ValidationError
  warnings : List ValidationWarning
  deriving DecidableEq, Repr

structure ValidateOptions where
  strict : Bool := false
  profile : Option String := none
  deriving DecidableEq, Repr

def strToLower (s : String) : String :=
  String.mk (s.data.map Char.toLower)

/-- An entity name that sounds financial: contains (case-insensitively)
`journal`, `ledger`, `entry` or `posting`. -/
def isFinancialName (name : String) : Bool :=
  containsSub ("journal").data (strToLower name).data ||
  containsSub ("ledger").data (strToLower name).data ||
  containsSub ("entry").data (strToLower name).data ||
  containsSub ("posting").data (strToLower name).data

/-- `validateProductionRules`: idempotency errors for non-idempotent
commands (unless relaxed), then rate-limit, tenant-scoping and
financial-entity warnings. -/
def validateProductionRules (spec : Spec) (profileConfig : ProfileConfig) :
    List ValidationError × List ValidationWarning :=
  let idempotencyErrors :=
    if profileConfig.require_idempotency ≠ some false then
      spec.actions.filterMap (fun an =>
        if an.2.type = "command" && !(an.2.idempotent.getD false) then
          some { path := "actions." ++ an.1,
                 message := "Commands must be idempotent in production profile" }
        else none)
    else []
  let rateLimitWarnings :=
    if profileConfig.require_rate_limits ≠ some false then
      spec.actions.filterMap (fun an =>
        if an.2.rate_limit.isNone && an.2.type = "command" then
          some { path := "actions." ++ an.1,
                 message := "Command should have rate limit defined for production",
                 suggestion := some "Add rate_limit configuration" }
        else none)
    else []
  let tenancyWarnings :=
    if profileConfig.strict_tenancy ≠ some false && spec.product.tenancy.mode = "multi" then
      spec.entities.filterMap (fun en =>
        if en.2.tenant_scoped = some false then
          some { path := "entities." ++ en.1,
                 message := "Entity is not tenant-scoped in multi-tenant mode",
                 suggestion := some "Set tenant_scoped: true or explicitly document why this is global" }
        else none)
    else []
  let financialWarnings :=
    spec.entities.filterMap (fun en =>
      if isFinancialName en.1 && !(en.2.ai_suggest_only.getD false) then
        some { path := "entities." ++ en.1,
               message := "Financial entity should be ai_suggest_only for safety",
               suggestion := some "Set ai_suggest_only: true" }
      else none)
  (idempotencyErrors, rateLimitWarnings ++ tenancyWarnings ++ financialWarnings)

/-- `validateStrictRules` pushes only warnings (missing descriptions and
orphaned screens). -/
def validateStrictRules (spec : Spec) : List ValidationWarning :=
  (spec.entities.filterMap (fun en =>
    match en.2.description with
    | none =>
      some { path := "entities." ++ en.1, message := "Entity should have a description" }
    | some _ => none)) ++
  (spec.actions.filterMap (fun an =>
    match an.2.description with
    | none =>
      some { path := "actions." ++ an.1, message := "Action should have a description" }
    | some _ => none)) ++
  (let referencedScreens := spec.flows.flatMap (fun fn => fn.2.steps.map (fun sn => sn.2.screen))
   (spec.ui.screens.getD []).filterMap (fun sn =>
     if referencedScreens.contains sn.1 then none
     else some { path := "ui.screens." ++ sn.1,
                 message := "Screen is not referenced by any flow" }))

/-- `options.profile || spec.product.profile`. -/
def effProfile (options : ValidateOptions) (spec : Spec) : String :=
  orDefaultStr options.profile spec.product.profile

/-- `spec.product.profiles?.[profile]`. -/
def profileConfigOf (spec : Spec) (profile : String) : Option ProfileConfig :=
  spec.product.profiles.bind (fun ps =>
    if profile = "dev" then ps.dev
    else if profile = "prod" then ps.prod
    else none)

/-- `SpecValidator.validate(spec, options)`.  `schemaErrors` abstracts the
ajv schema-shape errors (external, see the section comment); they are the
errors accumulated before the profile-gated business rules, as in the
source. -/
def SpecValidator.validate (schemaErrors : List ValidationError) (spec : Spec)
    (options : ValidateOptions) : ValidationResult :=
  let profile := effProfile options spec
  let profileConfig := profileConfigOf spec profile
  let prodResult :=
    if profile = "prod" || profileConfig.isSome then
      validateProductionRules spec (profileConfig.getD {})
    else ([], [])
  let strictWarnings := if options.strict then validateStrictRules spec else []
  let errors := schemaErrors ++ prodResult.1
  let warnings := prodResult.2 ++ strictWarnings
  { valid := errors.isEmpty, errors := errors, warnings := warnings }

/-- Claim C3 (theorem): the condition evaluator is fail-closed.  First
conjunct: the fuelled evaluator's result does not depend on the fuel once it
exceeds the expression length — the recursion always terminates, so the
function is total ("never throws") for every expression string and context.
Second conjunct: the malformed expression `not.a.valid>>expr` evaluates to
`false` for every context.  Third conjunct: a dotted property path with a
missing segment resolves to `undefined` and evaluates to `false`, never an
error. -/
theorem evaluateCondition_fail_closed :
    (∀ (e : String) (ctx : ConditionContext) (n : ℕ), e.data.length < n →
      evalCondF n e.data ctx = evaluateCondition e ctx) ∧
    (∀ ctx : ConditionContext, evaluateCondition "not.a.valid>>expr" ctx = false) ∧
    (∀ ctx : ConditionContext, ctx.user = vObj [("id", vStr "u1")] →
      evaluateCondition "user.missing.deep" ctx = false) := by
  refine ⟨?_, ?_, ?_⟩
  · intro e ctx n hn
    exact evalCondF_fuel_eq e.data.length e.data ctx n (e.data.length + 1) le_rfl hn
      (by omega)
  · intro ctx
    rfl
  · rintro ⟨u, r, q⟩ h
    simp only at h
    subst h
    rfl

/-- Witness for C3 at a concrete context: over-fuelled evaluation agrees,
and both failure examples return `false`. -/
theorem evaluateCondition_fail_closed_witness :
    evalCondF 20 ("not.a.valid>>expr").data ⟨vObj [("id", vStr "u1")], vObj [], vObj []⟩ =
      evaluateCondition "not.a.valid>>expr" ⟨vObj [("id", vStr "u1")], vObj [], vObj []⟩ ∧
    evaluateCondition "not.a.valid>>expr" ⟨vObj [("id", vStr "u1")], vObj [], vObj []⟩ = false ∧
    evaluateCondition "user.missing.deep" ⟨vObj [("id", vStr "u1")], vObj [], vObj []⟩ = false :=
  ⟨evaluateCondition_fail_closed.1 _ _ 20 (by decide),
   evaluateCondition_fail_closed.2.1 _,
   evaluateCondition_fail_closed.2.2 _ rfl⟩

/-- Claim C5 (theorem): `getEffectivePermissions` is total for every role
map and requested role list — cyclic inheritance included — because it is
accepted by Lean with the visited-set as its termination measure; its result
has no duplicates (each reachable role's contribution is counted once), and
its members are exactly the union of the `permissions` and `can` lists of
the roles reachable from the requested names through `inherits`. -/
theorem getEffectivePermissions_cycle_safe_union (rm : List (String × RoleDefinition))
    (names : List String) :
    (getEffectivePermissions rm names).Nodup ∧
    (∀ x, x ∈ getEffectivePermissions rm names ↔
      ∃ s r, (∃ t ∈ names, RoleReach rm t s) ∧ rm.lookup s = some r ∧
        (x ∈ r.permissions.getD [] ∨ x ∈ r.can.getD [])) :=
  ⟨walkRoles_nodup rm names ⟨[], []⟩ (by simp),
   fun x => getEffectivePermissions_mem_iff rm names x⟩

/-- Claim C6 (theorem): with `requestsPerMinute = 2, burst = 0`, three
consecutive `consume` calls on one key inside one 60000 ms window are
allowed, allowed, denied; the denied call's `retryAfter` is the ceiling in
whole seconds of the remaining window time, strictly positive and at most
60; a call after the window's `resetAt` is allowed again with a fresh
window; and in general the allowed quota per window is
`requestsPerMinute + burst` (last conjunct, for every configuration). -/
theorem rateLimiter_windowing (key : String) (n1 n2 n3 n4 : ℕ)
    (h12 : n1 ≤ n2) (h23 : n2 ≤ n3) (h3 : n3 < n1 + 60000) (h4 : n4 > n1 + 60000) :
    let cfg : RateLimitConfig := ⟨2, some 0, "user"⟩
    let r1 := RateLimiter.consume cfg [] key n1
    let r2 := RateLimiter.consume cfg r1.2 key n2
    let r3 := RateLimiter.consume cfg r2.2 key n3
    let r4 := RateLimiter.consume cfg r3.2 key n4
    r1.1.allowed = true ∧ r2.1.allowed = true ∧ r3.1.allowed = false ∧
    r3.1.retryAfter = some ((n1 + 60000 - n3 + 999) / 1000) ∧
    (∀ ra, r3.1.retryAfter = some ra → 0 < ra ∧ ra ≤ 60) ∧
    r4.1.allowed = true ∧ r4.2 = [(key, ⟨1, n4 + 60000⟩)] ∧
    (∀ (cfg2 : RateLimitConfig) (k : String) (t m : ℕ),
      (RateLimiter.consume cfg2 (consumeTimes cfg2 k t m) k t).1.allowed = true ↔
        m < cfg2.requestsPerMinute + cfg2.burst.getD 0) := by
  dsimp only
  have hw : windowMs = 60000 := rfl
  -- first call: empty store, fresh window
  have e1 : RateLimiter.consume ⟨2, some 0, "user"⟩ [] key n1 =
      (RateLimiter.check ⟨2, some 0, "user"⟩ [] key n1,
        storeSet [] key (bumpEntry [] key n1)) :=
    consume_of_allowed (by show (0 : ℕ) < 2 + 0; omega)
  have hs1 : (RateLimiter.consume ⟨2, some 0, "user"⟩ [] key n1).2 =
      [(key, ⟨1, n1 + 60000⟩)] := by
    rw [e1]
    rfl
  have ha1 : (RateLimiter.consume ⟨2, some 0, "user"⟩ [] key n1).1.allowed = true := by
    rw [e1, check_allowed (by show (0 : ℕ) < 2 + 0; omega)]
  -- second call: count 1 in the live window
  have heff2 : effEntry [(key, ⟨1, n1 + 60000⟩)] key n2 = ⟨1, n1 + 60000⟩ := by
    unfold effEntry
    simp only [List.lookup_cons_self]
    rw [if_neg (by omega)]
  have hc2 : (effEntry [(key, ⟨1, n1 + 60000⟩)] key n2).count < 2 + 0 := by
    rw [heff2]
    show (1 : ℕ) < 2 + 0
    omega
  have e2 : RateLimiter.consume ⟨2, some 0, "user"⟩ [(key, ⟨1, n1 + 60000⟩)] key n2 =
      (RateLimiter.check ⟨2, some 0, "user"⟩ [(key, ⟨1, n1 + 60000⟩)] key n2,
        storeSet [(key, ⟨1, n1 + 60000⟩)] key (bumpEntry [(key, ⟨1, n1 + 60000⟩)] key n2)) :=
    consume_of_allowed hc2
  have hbump2 : bumpEntry [(key, ⟨1, n1 + 60000⟩)] key n2 = ⟨2, n1 + 60000⟩ := by
    unfold bumpEntry
    simp only [List.lookup_cons_self]
    rw [if_neg (by omega)]
  have hs2 : (RateLimiter.consume ⟨2, some 0, "user"⟩ [(key, ⟨1, n1 + 60000⟩)] key n2).2 =
      [(key, ⟨2, n1 + 60000⟩)] := by
    rw [e2, hbump2]
    unfold storeSet
    simp
  have ha2 : (RateLimiter.consume ⟨2, some 0, "user"⟩
      [(key, ⟨1, n1 + 60000⟩)] key n2).1.allowed = true := by
    rw [e2, check_allowed hc2]
  -- third call: count 2 = quota, denied
  have heff3 : effEntry [(key, ⟨2, n1 + 60000⟩)] key n3 = ⟨2, n1 + 60000⟩ := by
    unfold effEntry
    simp only [List.lookup_cons_self]
    rw [if_neg (by omega)]
  have hc3 : (effEntry [(key, ⟨2, n1 + 60000⟩)] key n3).count ≥ 2 + 0 := by
    rw [heff3]
  have e3 : RateLimiter.consume ⟨2, some 0, "user"⟩ [(key, ⟨2, n1 + 60000⟩)] key n3 =
      (RateLimiter.check ⟨2, some 0, "user"⟩ [(key, ⟨2, n1 + 60000⟩)] key n3,
        [(key, ⟨2, n1 + 60000⟩)]) :=
    consume_of_denied hc3
  have hchk3 : RateLimiter.check ⟨2, some 0, "user"⟩ [(key, ⟨2, n1 + 60000⟩)] key n3 =
      { allowed := false, remaining := 0, resetAt := n1 + 60000,
        retryAfter := some ((n1 + 60000 - n3 + 999) / 1000) } := by
    rw [check_denied hc3, heff3]
  -- fourth call: window expired, fresh window again
  have heff4 : effEntry [(key, ⟨2, n1 + 60000⟩)] key n4 = ⟨0, n4 + 60000⟩ := by
    unfold effEntry
    simp only [List.lookup_cons_self]
    rw [if_pos (by omega)]
    rfl
  have hc4 : (effEntry [(key, ⟨2, n1 + 60000⟩)] key n4).count < 2 + 0 := by
    rw [heff4]
    show (0 : ℕ) < 2 + 0
    omega
  have e4 : RateLimiter.consume ⟨2, some 0, "user"⟩ [(key, ⟨2, n1 + 60000⟩)] key n4 =
      (RateLimiter.check ⟨2, some 0, "user"⟩ [(key, ⟨2, n1 + 60000⟩)] key n4,
        storeSet [(key, ⟨2, n1 + 60000⟩)] key (bumpEntry [(key, ⟨2, n1 + 60000⟩)] key n4)) :=
    consume_of_allowed hc4
  have hbump4 : bumpEntry [(key, ⟨2, n1 + 60000⟩)] key n4 = ⟨1, n4 + 60000⟩ := by
    unfold bumpEntry
    simp only [List.lookup_cons_self]
    rw [if_pos (by omega)]
    rfl
  refine ⟨ha1, ?_, ?_, ?_, ?_, ?_, ?_, ?_⟩
  · rw [hs1]
    exact ha2
  · rw [hs1, hs2, e3, hchk3]
  · rw [hs1, hs2, e3, hchk3]
  · intro ra hra
    rw [hs1, hs2, e3, hchk3] at hra
    simp only [Option.some.injEq] at hra
    subst hra
    constructor
    · omega
    · omega
  · rw [hs1, hs2, e3]
    show (RateLimiter.consume ⟨2, some 0, "user"⟩ [(key, ⟨2, n1 + 60000⟩)] key n4).1.allowed = true
    rw [e4, check_allowed hc4]
  · rw [hs1, hs2, e3]
    show (RateLimiter.consume ⟨2, some 0, "user"⟩ [(key, ⟨2, n1 + 60000⟩)] key n4).2 =
      [(key, ⟨1, n4 + 60000⟩)]
    rw [e4, hbump4]
    unfold storeSet
    simp
  · intro cfg2 k t m
    rw [consume_allowed_iff,
      consumeTimes_spec cfg2 k t (cfg2.requestsPerMinute + cfg2.burst.getD 0) rfl m]
    by_cases h0 : min m (cfg2.requestsPerMinute + cfg2.burst.getD 0) = 0
    · rw [if_pos h0]
      have : effEntry [] k t = ⟨0, t + windowMs⟩ := rfl
      rw [this]
      show (0 : ℕ) < _ ↔ _
      omega
    · rw [if_neg h0]
      have : effEntry [(k, ⟨min m (cfg2.requestsPerMinute + cfg2.burst.getD 0), t + windowMs⟩)] k t =
          ⟨min m (cfg2.requestsPerMinute + cfg2.burst.getD 0), t + windowMs⟩ := by
        unfold effEntry
        simp only [List.lookup_cons_self]
        rw [if_neg (by omega)]
      rw [this]
      show min m _ < _ ↔ _
      omega

/-- Witness for C6 at concrete times: calls at 0, 1, 2 ms and a fourth at
70000 ms, plus the quota clause at `requestsPerMinute = 3, burst = 1`,
`m = 4`. -/
theorem rateLimiter_windowing_witness :
    ((RateLimiter.consume ⟨2, some 0, "user"⟩ [] "k" 0).1.allowed = true) ∧
    ((RateLimiter.consume ⟨3, some 1, "user"⟩ (consumeTimes ⟨3, some 1, "user"⟩ "k" 5 4)
        "k" 5).1.allowed = true ↔ (4 : ℕ) < 3 + 1) := by
  have h := rateLimiter_windowing "k" 0 1 2 70000 (by omega) (by omega) (by omega) (by omega)
  dsimp only at h
  exact ⟨h.1, h.2.2.2.2.2.2.2 ⟨3, some 1, "user"⟩ "k" 5 4⟩

/-- The error list of `link` is the concatenation of the six
cross-reference validators followed by the invariant checks, in source
order (`checkUnused` contributes only warnings). -/
theorem link_errors_eq (hashFn : String → String) (now : String) (spec : Spec) :
    (SpecLinker.link hashFn now spec).errors =
      validateEntityReferences spec ++ validateActionReferences spec ++
      validateFlowReferences spec ++ validatePolicyReferences spec ++
      validateUiReferences spec ++ validateJobReferences spec ++ checkInvariants spec := by
  unfold SpecLinker.link
  dsimp only
  split <;> simp [List.append_assoc]

theorem link_blocks_on_errors (hashFn : String → String) (now : String) (spec : Spec)
    (h : (SpecLinker.link hashFn now spec).errors ≠ []) :
    (SpecLinker.link hashFn now spec).valid = false ∧
    (SpecLinker.link hashFn now spec).bundle = none := by
  unfold SpecLinker.link at h ⊢
  dsimp only at h ⊢
  by_cases hc : (validateEntityReferences spec ++ validateActionReferences spec ++
      validateFlowReferences spec ++ validatePolicyReferences spec ++
      validateUiReferences spec ++ validateJobReferences spec ++
      checkInvariants spec).length > 0
  · rw [if_pos hc]
    exact ⟨rfl, rfl⟩
  · exfalso
    apply h
    rw [if_neg hc]
    dsimp only
    exact List.eq_nil_of_length_eq_zero (by omega)

/-- Claim C7 (theorem): whenever an entity `E` has a field whose
`reference.entity` names an entity absent from `spec.entities`, `link`
reports a `missing_reference` error whose source path begins with
`entities.E` and whose target is the missing entity's path; and whenever
the error list is non-empty, `link` returns `valid: false` and
`bundle: null`. -/
theorem link_missing_entity_reference (hashFn : String → String) (now : String)
    (spec : Spec) (E : String) (ent : EntitySpec) (f : String) (fld : FieldSpec)
    (ref : FieldReference)
    (hE : (E, ent) ∈ spec.entities)
    (hf : (f, fld) ∈ ent.fields)
    (href : fld.reference = some ref)
    (hX : spec.entities.lookup ref.entity = none) :
    (∃ err ∈ (SpecLinker.link hashFn now spec).errors,
      err.type = LinkErrorType.missing_reference ∧
      (∃ rest, err.source = "entities." ++ E ++ rest) ∧
      err.target = some ("entities." ++ ref.entity)) ∧
    (∀ spec2 : Spec, (SpecLinker.link hashFn now spec2).errors ≠ [] →
      (SpecLinker.link hashFn now spec2).valid = false ∧
      (SpecLinker.link hashFn now spec2).bundle = none) := by
  constructor
  · refine
      ⟨{ type := LinkErrorType.missing_reference,
         message := "Entity \"" ++ ref.entity ++ "\" referenced by field \"" ++ f ++ "\" does not exist",
         source := "entities." ++ E ++ ".fields." ++ f,
         target := some ("entities." ++ ref.entity) }, ?_, rfl, ⟨".fields." ++ f, ?_⟩, rfl⟩
    · rw [link_errors_eq]
      rw [List.append_assoc, List.append_assoc, List.append_assoc, List.append_assoc,
        List.append_assoc]
      rw [List.mem_append]
      left
      unfold validateEntityReferences
      rw [List.mem_flatMap]
      refine ⟨(E, ent), hE, ?_⟩
      rw [List.mem_append]
      left
      rw [List.mem_flatMap]
      refine ⟨(f, fld), hf, ?_⟩
      simp only [href, hX]
      simp
    · simp [String.append_assoc]
  · intro spec2 h
    exact link_blocks_on_errors hashFn now spec2 h

def productV1 : ProductSpec :=
  { name := "p", version := "1.0.0", tenancy := ⟨"single", "row", none⟩, profile := "dev" }

def specMissingRef : Spec :=
  { product := productV1,
    entities := [("E", { fields :=
      [("owner", { type := "uuid", reference := some ⟨"Missing", none⟩ })] })],
    actions := [], flows := [], policies := {}, ui := {}, metrics := {}, jobs := {} }

/-- Witness for C7: a one-entity spec whose only field references a missing
entity: the error is reported and linking produces no bundle. -/
theorem link_missing_entity_reference_witness :
    (∃ err ∈ (SpecLinker.link id "t" specMissingRef).errors,
      err.type = LinkErrorType.missing_reference ∧
      (∃ rest, err.source = "entities." ++ "E" ++ rest) ∧
      err.target = some ("entities." ++ "Missing")) ∧
    (SpecLinker.link id "t" specMissingRef).valid = false ∧
    (SpecLinker.link id "t" specMissingRef).bundle = none := by
  have h := link_missing_entity_reference id "t" specMissingRef "E"
    { fields := [("owner", { type := "uuid", reference := some ⟨"Missing", none⟩ })] }
    "owner" { type := "uuid", reference := some ⟨"Missing", none⟩ } ⟨"Missing", none⟩
    (by simp [specMissingRef]) (by simp) rfl rfl
  exact ⟨h.1, h.2 specMissingRef (by decide)⟩

/-- Claim C8 (theorem): a spec with a journal-entry entity that is not
immutable and a journal-line entity lacking both debit-type and
credit-type fields, under `product.profile = "prod"`, yields both
`invariant_violation` errors (balance fields and production immutability) —
at least two distinct `invariant_violation` errors in `link`'s output. -/
theorem link_journal_invariants (hashFn : String → String) (now : String) (spec : Spec)
    (je jl : EntitySpec)
    (hje : (spec.entities.lookup "JournalEntry").or (spec.entities.lookup "journal_entry") =
      some je)
    (hjl : (spec.entities.lookup "JournalLine").or (spec.entities.lookup "journal_line") =
      some jl)
    (hdebit : hasKey jl.fields "debit" = false)
    (hdebit2 : hasKey jl.fields "debit_amount" = false)
    (himm : je.immutable.getD false = false)
    (hprof : spec.product.profile = "prod") :
    ({ type := LinkErrorType.invariant_violation,
       message := "JournalLine must have both debit and credit fields for balance invariant",
       source := "entities.JournalLine", target := none } : LinkError) ∈
      (SpecLinker.link hashFn now spec).errors ∧
    ({ type := LinkErrorType.invariant_violation,
       message := "JournalEntry should be immutable in production for audit compliance",
       source := "entities.JournalEntry", target := none } : LinkError) ∈
      (SpecLinker.link hashFn now spec).errors ∧
    ({ type := LinkErrorType.invariant_violation,
       message := "JournalLine must have both debit and credit fields for balance invariant",
       source := "entities.JournalLine", target := none } : LinkError) ≠
    ({ type := LinkErrorType.invariant_violation,
       message := "JournalEntry should be immutable in production for audit compliance",
       source := "entities.JournalEntry", target := none } : LinkError) := by
  have hinv : checkInvariants spec =
      [{ type := LinkErrorType.invariant_violation,
         message := "JournalLine must have both debit and credit fields for balance invariant",
         source := "entities.JournalLine", target := none },
       { type := LinkErrorType.invariant_violation,
         message := "JournalEntry should be immutable in production for audit compliance",
         source := "entities.JournalEntry", target := none }] := by
    unfold checkInvariants
    rw [hje, hjl]
    dsimp only
    rw [hdebit, hdebit2, himm, hprof]
    simp
  refine ⟨?_, ?_, by decide⟩
  · rw [link_errors_eq, hinv]
    simp
  · rw [link_errors_eq, hinv]
    simp

def specJournalBad : Spec :=
  { product := { productV1 with profile := "prod" },
    entities := [("JournalEntry", { fields := [("id", { type := "uuid" })] }),
      ("JournalLine", { fields := [("amount", { type := "decimal" })] })],
    actions := [], flows := [], policies := {}, ui := {}, metrics := {}, jobs := {} }

/-- Witness for C8 at a concrete production-profile spec with a mutable
`JournalEntry` and a `JournalLine` without debit/credit fields. -/
theorem link_journal_invariants_witness :
    ({ type := LinkErrorType.invariant_violation,
       message := "JournalLine must have both debit and credit fields for balance invariant",
       source := "entities.JournalLine", target := none } : LinkError) ∈
      (SpecLinker.link id "t" specJournalBad).errors ∧
    ({ type := LinkErrorType.invariant_violation,
       message := "JournalEntry should be immutable in production for audit compliance",
       source := "entities.JournalEntry", target := none } : LinkError) ∈
      (SpecLinker.link id "t" specJournalBad).errors := by
  have h := link_journal_invariants id "t" specJournalBad
    { fields := [("id", { type := "uuid" })] }
    { fields := [("amount", { type := "decimal" })] }
    (by decide) (by decide) (by decide) (by decide) (by decide) rfl
  exact ⟨h.1, h.2.1⟩

def specKeyOrder1 : Spec :=
  { product := productV1,
    entities := [("A", { fields := [("id", { type := "uuid", primary := some true })] }),
      ("B", { fields := [("id", { type := "uuid" })] })],
    actions := [], flows := [], policies := {}, ui := {}, metrics := {}, jobs := {} }

/-- The same spec content as `specKeyOrder1` with the two entities in the
opposite key insertion order. -/
def specKeyOrder2 : Spec :=
  { product := productV1,
    entities := [("B", { fields := [("id", { type := "uuid" })] }),
      ("A", { fields := [("id", { type := "uuid", primary := some true })] })],
    actions := [], flows := [], policies := {}, ui := {}, metrics := {}, jobs := {} }

set_option maxRecDepth 4000 in
/-- Claim C1 (theorem, exhibiting the divergence): `specKeyOrder1` and
`specKeyOrder2` are deeply equal up to object key insertion order — their
canonical (recursively key-sorted) JSON serializations coincide — yet the
strings `computeHash` actually digests (`JSON.stringify` in insertion
order, no sorting) differ, and both specs link successfully into bundles
whose `_meta.hash` is the digest of those differing strings.  The claimed
hash stability would require canonicalizing before hashing, which
`computeHash` does not do. -/
theorem computeHash_key_order_dependent :
    ∀ (hashFn : String → String) (now : String),
      canonicalJsonStringify (specToJson specKeyOrder1) =
        canonicalJsonStringify (specToJson specKeyOrder2) ∧
      jsonStringify (specToJson specKeyOrder1) ≠ jsonStringify (specToJson specKeyOrder2) ∧
      (SpecLinker.link hashFn now specKeyOrder1).bundle = some
        { spec := specKeyOrder1,
          meta := { version := "1.0.0", generated_at := now,
                    hash := hashFn (jsonStringify (specToJson specKeyOrder1)) } } ∧
      (SpecLinker.link hashFn now specKeyOrder2).bundle = some
        { spec := specKeyOrder2,
          meta := { version := "1.0.0", generated_at := now,
                    hash := hashFn (jsonStringify (specToJson specKeyOrder2)) } } := by
  intro hashFn now
  refine ⟨by decide, by decide, rfl, rfl⟩

/-- Claim C9 (theorem): when the effective profile is `prod` (or a
profile-specific config block exists) and `require_idempotency` is not
explicitly `false`, `validate` emits a blocking error at
`actions.<name>` for every non-idempotent command action; and the result
is valid exactly when the error list is empty, so any error forces
`valid: false`. -/
theorem validate_prod_idempotency (schemaErrors : List ValidationError) (spec : Spec)
    (options : ValidateOptions) (name : String) (action : ActionSpec)
    (hgate : effProfile options spec = "prod" ∨
      (profileConfigOf spec (effProfile options spec)).isSome = true)
    (hrelax : ((profileConfigOf spec (effProfile options spec)).getD {}).require_idempotency ≠
      some false)
    (ha : (name, action) ∈ spec.actions)
    (hcmd : action.type = "command")
    (hidem : action.idempotent.getD false = false) :
    ({ path := "actions." ++ name,
       message := "Commands must be idempotent in production profile",
       schemaPath := none } : ValidationError) ∈
      (SpecValidator.validate schemaErrors spec options).errors ∧
    ((SpecValidator.validate schemaErrors spec options).valid = true ↔
      (SpecValidator.validate schemaErrors spec options).errors = []) := by
  have hgate' : (effProfile options spec = "prod" ||
      (profileConfigOf spec (effProfile options spec)).isSome) = true := by
    rcases hgate with h | h <;> simp [h]
  constructor
  · show _ ∈ (SpecValidator.validate schemaErrors spec options).errors
    unfold SpecValidator.validate
    dsimp only
    rw [if_pos (by simpa using hgate')]
    rw [List.mem_append]
    right
    unfold validateProductionRules
    dsimp only
    rw [if_pos hrelax]
    rw [List.mem_filterMap]
    refine ⟨(name, action), ha, ?_⟩
    rw [if_pos (by simp [hcmd, hidem])]
  · unfold SpecValidator.validate
    dsimp only
    rw [List.isEmpty_iff]

def specNonIdemCmd : Spec :=
  { product := { productV1 with profile := "prod" },
    entities := [],
    actions := [("create_order", { type := "command" })],
    flows := [], policies := {}, ui := {}, metrics := {}, jobs := {} }

/-- Witness for C9: a prod-profile spec whose single command action is not
idempotent gets the blocking error and an invalid result. -/
theorem validate_prod_idempotency_witness :
    ({ path := "actions." ++ "create_order",
       message := "Commands must be idempotent in production profile",
       schemaPath := none } : ValidationError) ∈
      (SpecValidator.validate [] specNonIdemCmd { }).errors ∧
    (SpecValidator.validate [] specNonIdemCmd { }).valid = false := by
  have h := validate_prod_idempotency [] specNonIdemCmd { } "create_order"
    { type := "command" } (Or.inl rfl) (by decide) (by decide) rfl rfl
  refine ⟨h.1, ?_⟩
  have h2 := h.2
  by_cases hv : (SpecValidator.validate [] specNonIdemCmd { }).valid = true
  · exfalso
    have hnil := h2.mp hv
    rw [hnil] at h
    exact absurd h.1 (by simp)
  · simpa using hv

end Foundation
